import Mathlib

/-!
Verification of the ray-tracer core (BVH build/traversal, bounding-box slab
test, path integrator) against its natural-language specification.

The Rust `f64` values are embedded as exact rationals `ℚ`.  The two places
where IEEE-754 behaviour is essential are modelled explicitly:

* `f64::sqrt` (an external numeric primitive) is threaded through the
  definitions as a parameter `sq : ℚ → ℚ`;
* the slab test in `BoundingBox::hit` divides by a possibly-zero direction
  component, relying on IEEE infinities and NaN-comparison semantics.  The
  running `[t_min, t_max]` interval is therefore modelled over `ExtQ`
  (rationals extended with two infinities), and the transient NaN values
  (arising only as `0 * ∞`) are modelled by their observable effect: every
  comparison against them is false, leaving the running bounds unchanged.

Rounding of exact real results to `f64` is idealised away, as is the
distinction between `0.0` and `-0.0` (a direction component of literal `0`
is treated as `+0.0`, so `1.0/0.0 = +∞`).
-/

set_option maxHeartbeats 1000000

/-! ## Vectors (src/src/vec3d.rs) -/

structure Vec3 where
  x : ℚ
  y : ℚ
  z : ℚ
deriving DecidableEq

instance : Add Vec3 := ⟨fun a b => ⟨a.x + b.x, a.y + b.y, a.z + b.z⟩⟩

instance : Sub Vec3 := ⟨fun a b => ⟨a.x - b.x, a.y - b.y, a.z - b.z⟩⟩

instance : HMul ℚ Vec3 Vec3 := ⟨fun t v => ⟨t * v.x, t * v.y, t * v.z⟩⟩

instance : HDiv Vec3 ℚ Vec3 := ⟨fun v t => ⟨v.x / t, v.y / t, v.z / t⟩⟩

def Vec3.len_squared (v : Vec3) : ℚ :=
  v.x * v.x + v.y * v.y + v.z * v.z

def Vec3.dot (v w : Vec3) : ℚ :=
  v.x * w.x + v.y * w.y + v.z * w.z

/-- Rust `Vec3d::len`, with `f64::sqrt` abstracted as the parameter `sq`. -/
def Vec3.len (sq : ℚ → ℚ) (v : Vec3) : ℚ :=
  sq v.len_squared

/-- Rust `Vec3d::unit_vector`, with `f64::sqrt` abstracted as the parameter `sq`. -/
def Vec3.unit_vector (sq : ℚ → ℚ) (v : Vec3) : Vec3 :=
  v / Vec3.len sq v

/-- Rust `Vec3d::get_axis`.  The Rust function panics for `axis > 2`; every call
site in the embedded code passes only `0`, `1` or `2`, so the out-of-range
value is irrelevant junk. -/
def Vec3.get (v : Vec3) : ℕ → ℚ
  | 0 => v.x
  | 1 => v.y
  | 2 => v.z
  | _ => 0

/-! ## Rays (src/src/ray.rs) -/

structure Ray where
  origin : Vec3
  direction : Vec3
  time : ℚ

def Ray.at (r : Ray) (t : ℚ) : Vec3 :=
  r.origin + t * r.direction

/-! ## Colours (src/src/colour.rs) -/

structure RGB where
  r : ℚ
  g : ℚ
  b : ℚ
deriving DecidableEq

instance : Add RGB := ⟨fun a b => ⟨a.r + b.r, a.g + b.g, a.b + b.b⟩⟩

/-- Rust `impl Mul for RGB`: component-wise (Hadamard) product. -/
instance : Mul RGB := ⟨fun a b => ⟨a.r * b.r, a.g * b.g, a.b * b.b⟩⟩

/-- Rust `impl Mul<RGB> for f64`: scalar scaling. -/
instance : HMul ℚ RGB RGB := ⟨fun t c => ⟨t * c.r, t * c.g, t * c.b⟩⟩

/-! ## Extended rationals for the slab test -/

/-- Rationals extended with `-∞` and `+∞`, the values the running
`t_min`/`t_max` interval of `BoundingBox::hit` can take under IEEE-754
arithmetic. -/
inductive ExtQ where
  | negInf : ExtQ
  | fin : ℚ → ExtQ
  | posInf : ExtQ
deriving DecidableEq

/-- Strict `<` on `ExtQ` as a boolean, matching `f64` comparison of
non-NaN values. -/
def ExtQ.blt : ExtQ → ExtQ → Bool
  | .negInf, .negInf => false
  | .negInf, _ => true
  | .fin _, .negInf => false
  | .fin a, .fin b => a < b
  | .fin _, .posInf => true
  | .posInf, _ => false

/-- Comparison `≤` on `ExtQ` as a boolean; on the NaN-free values reaching it this is
the complement of reversed `<`. -/
def ExtQ.ble (a b : ExtQ) : Bool := !(ExtQ.blt b a)

/-! ## Bounding boxes (src/src/bvh/bounding_box.rs) -/

/-- Axis-aligned bounding box.  The invariant `min ≤ max` on every axis is
enforced by `BoundingBox::new` (it panics otherwise), so it is carried in
the type; `longest_axis`, being a pure function of `min`/`max` computed at
construction, is embedded as the derived function `BoundingBox.longestAxis`. -/
structure BoundingBox where
  min : Vec3
  max : Vec3
  valid : min.x ≤ max.x ∧ min.y ≤ max.y ∧ min.z ≤ max.z

/-- Rust `BoundingBox::new`; the construction-time panic on `min > max` is
modelled as `none`. -/
def BoundingBox.new (mn mx : Vec3) : Option BoundingBox :=
  if h : mx.x < mn.x ∨ mx.y < mn.y ∨ mx.z < mn.z then none
  else some ⟨mn, mx, by push_neg at h; exact ⟨h.1, h.2.1, h.2.2⟩⟩

/-- The `longest_axis` selection computed in `BoundingBox::new`. -/
def BoundingBox.longestAxis (b : BoundingBox) : ℕ :=
  let len_x := b.max.x - b.min.x
  let len_y := b.max.y - b.min.y
  let len_z := b.max.z - b.min.z
  if len_x ≥ len_y ∧ len_x ≥ len_z then 0
  else if len_y ≥ len_z then 1
  else 2

/-- Membership of a point in the box's 3-D extent (used only in
specifications, not in the embedded code). -/
def BoundingBox.contains (b : BoundingBox) (p : Vec3) : Prop :=
  b.min.x ≤ p.x ∧ p.x ≤ b.max.x ∧
  b.min.y ≤ p.y ∧ p.y ≤ b.max.y ∧
  b.min.z ≤ p.z ∧ p.z ≤ b.max.z

instance (b : BoundingBox) (p : Vec3) : Decidable (b.contains p) := by
  unfold BoundingBox.contains; infer_instance

/-- One axis of the slab test in `BoundingBox::hit` (the body of the
`for i in 0..3` loop).  `d = 0` is the IEEE case `inv_dir = 1/0.0 = +∞`:
then `t0 = (bmin-o)·∞` is `+∞`, `-∞` or NaN according to the sign of
`bmin - o` (and similarly `t1`); `+∞` replaces `t_min`, while `-∞` and NaN
lose every `t0 > t_min` comparison and leave it unchanged (dually for
`t_max`). -/
def slabAxis (bmin bmax o d : ℚ) (tmin tmax : ExtQ) : ExtQ × ExtQ :=
  if d = 0 then
    (if 0 < bmin - o then .posInf else tmin,
     if bmax - o < 0 then .negInf else tmax)
  else
    let inv := 1 / d
    let t0 := if 0 ≤ inv then (bmin - o) * inv else (bmax - o) * inv
    let t1 := if 0 ≤ inv then (bmax - o) * inv else (bmin - o) * inv
    (if ExtQ.blt tmin (.fin t0) then .fin t0 else tmin,
     if ExtQ.blt (.fin t1) tmax then .fin t1 else tmax)

/-- The slab-test loop of `BoundingBox::hit`, with the early
`return false` on `t_max <= t_min`. -/
def slabGo (b : BoundingBox) (r : Ray) : List ℕ → ExtQ → ExtQ → Bool
  | [], _, _ => true
  | i :: rest, tmin, tmax =>
    let p := slabAxis (b.min.get i) (b.max.get i) (r.origin.get i) (r.direction.get i) tmin tmax
    if ExtQ.ble p.2 p.1 then false else slabGo b r rest p.1 p.2

/-- Rust `BoundingBox::hit`. -/
def BoundingBox.hit (b : BoundingBox) (r : Ray) (t_min t_max : ℚ) : Bool :=
  slabGo b r [0, 1, 2] (.fin t_min) (.fin t_max)

/-! ## Box union (src/src/utilities.rs, `surrounding_box`) -/

/-- Rust `utilities::surrounding_box`: component-wise min of mins, max of maxes.
The inner `BoundingBox::new` cannot panic on valid inputs, so the result is
total. -/
def surrounding_box (box0 box1 : BoundingBox) : BoundingBox :=
  ⟨⟨min box0.min.x box1.min.x, min box0.min.y box1.min.y, min box0.min.z box1.min.z⟩,
   ⟨max box0.max.x box1.max.x, max box0.max.y box1.max.y, max box0.max.z box1.max.z⟩,
   ⟨le_trans (min_le_left _ _) (le_trans box0.valid.1 (le_max_left _ _)),
    le_trans (min_le_left _ _) (le_trans box0.valid.2.1 (le_max_left _ _)),
    le_trans (min_le_left _ _) (le_trans box0.valid.2.2 (le_max_left _ _))⟩⟩

/-- Modelled from the spec: `surrounding_box_option` is imported from
`utilities` by `Bvh::build_internal` and `HittableList::build` but its
definition is not among the provided sources.  Per the spec (§4.2 step 1,
fold of `surrounding_box` over the items' optional boxes; §3, absent BVH
children contribute nothing to the union at line 141 of bvh.rs), `none`
acts as the identity and two present boxes combine with `surrounding_box`. -/
def surrounding_box_option : Option BoundingBox → Option BoundingBox → Option BoundingBox
  | some a, some b => some (surrounding_box a b)
  | some a, none => some a
  | none, some b => some b
  | none, none => none

/-- Predicate: `inner` lies inside `outer`, component-wise (used in specifications). -/
def boxSub (inner outer : BoundingBox) : Prop :=
  outer.min.x ≤ inner.min.x ∧ outer.min.y ≤ inner.min.y ∧ outer.min.z ≤ inner.min.z ∧
  inner.max.x ≤ outer.max.x ∧ inner.max.y ≤ outer.max.y ∧ inner.max.z ≤ outer.max.z

/-! ## Hit records and materials (src/src/hittable/hit_record.rs,
src/src/materials/material.rs) -/

/-- The data fields of `HitRecord` (everything except the material
reference). -/
structure HitRecord where
  point : Vec3
  normal : Vec3
  t : ℚ
  u : ℚ
  v : ℚ
  front_face : Bool

/-- The `Material` trait contract: `scatter` and `emitted`.  In Rust
`scatter` receives the full `&HitRecord` including the material reference;
no material implementation reads `hit_record.material`, so the embedding
passes the material-free record, breaking the type-level cycle. -/
structure Material where
  scatter : Ray → HitRecord → Option (Ray × RGB)
  emitted : ℚ → ℚ → Vec3 → RGB

/-- A `HitRecord` together with its (non-owning, in Rust) material
reference. -/
structure HitRecordFull extends HitRecord where
  material : Material

/-- Rust `HitRecord::get_face_normal`. -/
def get_face_normal (ray : Ray) (outward_normal : Vec3) : Bool × Vec3 :=
  let front_face := decide (ray.direction.dot outward_normal < 0)
  (front_face, if front_face then outward_normal else (-1 : ℚ) * outward_normal)

/-! ## The Hittable trait (src/src/hittable/hittable.rs) -/

/-- A `dyn Hittable` trait object: its two observable operations. -/
structure HittableObj where
  hit : Ray → ℚ → ℚ → Option HitRecordFull
  bounding_box : ℚ → ℚ → Option BoundingBox

/-! ## HittableList (src/src/hittable/hittable_list.rs) -/

structure HittableList where
  time0 : ℚ
  time1 : ℚ
  items : List HittableObj
  bounding_box : Option BoundingBox

/-- Rust `HittableList::build`. -/
def HittableList.build (time0 time1 : ℚ) (items : List HittableObj) : HittableList :=
  { time0 := time0, time1 := time1, items := items,
    bounding_box :=
      items.foldl (fun bb item => surrounding_box_option bb (item.bounding_box time0 time1)) none }

/-- Rust `HittableList::hit`: linear scan, narrowing `closest_so_far` to each
hit found. -/
def HittableList.hit (l : HittableList) (ray : Ray) (t_min t_max : ℚ) : Option HitRecordFull :=
  (l.items.foldl
    (fun acc item =>
      match item.hit ray t_min acc.2 with
      | some hr => (some hr, hr.t)
      | none => acc)
    ((none : Option HitRecordFull), t_max)).1

/-! ## BVH (src/src/bvh/bvh.rs) -/

mutual

/-- Rust `Bvh`: children are `Option<Box<dyn Hittable>>`; in every tree produced
by `Bvh::build` a child is either a nested `Bvh` node or one of the scene's
primitives, which `BvhChild` captures. -/
inductive Bvh where
  | mk : Option BvhChild → Option BvhChild → BoundingBox → Bvh

inductive BvhChild where
  | node : Bvh → BvhChild
  | prim : HittableObj → BvhChild

end

def Bvh.left : Bvh → Option BvhChild
  | .mk l _ _ => l

def Bvh.right : Bvh → Option BvhChild
  | .mk _ r _ => r

def Bvh.box : Bvh → BoundingBox
  | .mk _ _ bb => bb

/-- Rust `impl Hittable for Bvh`, `bounding_box`: returns the stored box
regardless of the time arguments. -/
def Bvh.bounding_box (b : Bvh) (_time0 _time1 : ℚ) : Option BoundingBox :=
  some b.box

def BvhChild.bounding_box : BvhChild → ℚ → ℚ → Option BoundingBox
  | .node b => b.bounding_box
  | .prim o => o.bounding_box

mutual

/-- Rust `impl Hittable for Bvh`, `hit`: prune on the node's bounding box, then
query the children, narrowing `t_max` to the left child's hit before
querying the right child. -/
def Bvh.hit : Bvh → Ray → ℚ → ℚ → Option HitRecordFull
  | .mk left right bb, ray, t_min, t_max =>
    if BoundingBox.hit bb ray t_min t_max = false then none
    else
      match left, right with
      | none, none => none
      | some l, none => BvhChild.hit l ray t_min t_max
      | none, some r => BvhChild.hit r ray t_min t_max
      | some l, some r =>
        match BvhChild.hit l ray t_min t_max with
        | some hr =>
          match BvhChild.hit r ray t_min hr.t with
          | some hr2 => some hr2
          | none => some hr
        | none => BvhChild.hit r ray t_min t_max

/-- Dynamic dispatch of `hit` on a BVH child. -/
def BvhChild.hit : BvhChild → Ray → ℚ → ℚ → Option HitRecordFull
  | .node b, ray, t_min, t_max => Bvh.hit b ray t_min t_max
  | .prim o, ray, t_min, t_max => o.hit ray t_min t_max

end

mutual

/-- The scene primitives stored at the leaves of a built BVH, left to
right. -/
def Bvh.leaves : Bvh → List HittableObj
  | .mk l r _ => BvhChild.leavesOpt l ++ BvhChild.leavesOpt r

def BvhChild.leavesOpt : Option BvhChild → List HittableObj
  | none => []
  | some c => BvhChild.leaves c

def BvhChild.leaves : BvhChild → List HittableObj
  | .node b => Bvh.leaves b
  | .prim o => [o]

end

structure BvhMetrics where
  num_objects : ℕ
  min_depth : ℕ
  max_depth : ℕ
  average_depth : ℚ

/-- Rust `box_compare` (via `box_x_compare`/`box_y_compare`/`box_z_compare`):
compares the boxes at times `(0.0, 0.0)` by the min coordinate along
`axis` with `total_cmp` (which on non-NaN values is the usual order); the
`unwrap` panic on a missing box is modelled as `none`. -/
def box_compare (a b : HittableObj) (axis : ℕ) : Option Ordering :=
  match a.bounding_box 0 0, b.bounding_box 0 0 with
  | some box_a, some box_b =>
    some (if box_a.min.get axis < box_b.min.get axis then Ordering.lt
          else if box_a.min.get axis = box_b.min.get axis then Ordering.eq
          else Ordering.gt)
  | _, _ => none

/-- The sort key used by `box_compare` (only evaluated after the build has
checked that the box is present; the junk value for a missing box is never
reached). -/
def boxKey (axis : ℕ) (o : HittableObj) : ℚ :=
  match o.bounding_box 0 0 with
  | some bb => bb.min.get axis
  | none => 0

/-- Rust `Bvh::build_internal`, with an explicit structural-recursion fuel.
The Rust recursion terminates because each recursive call's item list is
strictly shorter; the fuel (instantiated with `items.length` by
`Bvh.build_internal`, and strictly larger than every recursive call's list
length) makes that measure structural, so the `fuel = 0` branch is never
reached from `Bvh.build_internal` (see `Bvh.buildFuel_congr`).

Panics — the `.expect` on the items' union box, `panic!("No objects")`,
the comparator's `unwrap` inside the sort (which fires exactly when some
item lacks a `bounding_box(0.0, 0.0)`, every element of a 2+-element slice
being compared at least once), and the `.expect` on the children's union
box — are modelled as `none`.  `items.sort_by(compare_fn)` is Rust's
stable sort, embedded as `List.mergeSort`; `split_off(mid)` keeps the
first `mid` elements in the left half. -/
def Bvh.buildFuel (time0 time1 : ℚ) : ℕ → List HittableObj → ℕ → Option (Bvh × BvhMetrics)
  | 0, _, _ => none
  | fuel + 1, items, current_depth =>
    let depth := current_depth + 1
    match items.foldl (fun bb item => surrounding_box_option bb (item.bounding_box time0 time1)) none with
    | none => none
    | some items_bounding_box =>
      let axis := items_bounding_box.longestAxis
      match items with
      | [] => none
      | [o] =>
        match surrounding_box_option (o.bounding_box time0 time1) none with
        | none => none
        | some bb =>
          some (Bvh.mk (some (.prim o)) none bb, ⟨1, depth, depth, (depth : ℚ)⟩)
      | [o1, o2] =>
        match box_compare o1 o2 axis with
        | none => none
        | some ord =>
          let lr := if ord = Ordering.gt then (o2, o1) else (o1, o2)
          match surrounding_box_option (lr.1.bounding_box time0 time1) (lr.2.bounding_box time0 time1) with
          | none => none
          | some bb =>
            some (Bvh.mk (some (.prim lr.1)) (some (.prim lr.2)) bb, ⟨2, depth, depth, (depth : ℚ)⟩)
      | o1 :: o2 :: o3 :: rest =>
        if (o1 :: o2 :: o3 :: rest).all (fun o => (o.bounding_box 0 0).isSome) then
          let sorted := (o1 :: o2 :: o3 :: rest).mergeSort
            (fun a b => decide (boxKey axis a ≤ boxKey axis b))
          let mid := (o1 :: o2 :: o3 :: rest).length / 2
          match Bvh.buildFuel time0 time1 fuel (sorted.take mid) depth,
                Bvh.buildFuel time0 time1 fuel (sorted.drop mid) depth with
          | some (leftB, lm), some (rightB, rm) =>
            match surrounding_box_option (leftB.bounding_box time0 time1)
                    (rightB.bounding_box time0 time1) with
            | none => none
            | some bb =>
              some (Bvh.mk (some (.node leftB)) (some (.node rightB)) bb,
                ⟨(o1 :: o2 :: o3 :: rest).length,
                 min lm.min_depth rm.min_depth,
                 max lm.max_depth rm.max_depth,
                 (lm.average_depth + rm.average_depth) / 2⟩)
          | _, _ => none
        else none

/-- Rust `Bvh::build_internal`: the fuelled recursion at its always-sufficient
fuel. -/
def Bvh.build_internal (time0 time1 : ℚ) (items : List HittableObj) (current_depth : ℕ) :
    Option (Bvh × BvhMetrics) :=
  Bvh.buildFuel time0 time1 items.length items current_depth

/-- Rust `Bvh::build`. -/
def Bvh.build (time0 time1 : ℚ) (items : List HittableObj) : Option (Bvh × BvhMetrics) :=
  Bvh.build_internal time0 time1 items 0

/-! ## Sphere (src/src/objects/sphere.rs) -/

structure Sphere where
  center : Vec3
  radius : ℚ
  material : Material

/-- Rust `Sphere::hit`, with `f64::sqrt` abstracted as `sq` and the
transcendental `get_sphere_uv` abstracted as `uv`. -/
def Sphere.hit (sq : ℚ → ℚ) (uv : Vec3 → ℚ × ℚ) (s : Sphere) (ray : Ray) (t_min t_max : ℚ) :
    Option HitRecordFull :=
  let oc := ray.origin - s.center
  let a := ray.direction.len_squared
  let half_b := oc.dot ray.direction
  let c := oc.len_squared - s.radius * s.radius
  let discriminant := half_b * half_b - a * c
  if discriminant < 0 then none
  else
    let d_sqrt := sq discriminant
    let root0 := (-half_b - d_sqrt) / a
    let root := if root0 < t_min ∨ root0 > t_max then (-half_b + d_sqrt) / a else root0
    if root < t_min ∨ root > t_max then none
    else
      let point := ray.at root
      let outward_normal := (point - s.center) / s.radius
      let uvp := uv outward_normal
      let fn := get_face_normal ray outward_normal
      some { point := point, normal := fn.2, t := root, u := uvp.1, v := uvp.2,
             front_face := fn.1, material := s.material }

/-- Rust `Sphere::bounding_box`; the inner `BoundingBox::new` panic (possible
only for a negative radius) is conflated with the absent-box case. -/
def Sphere.boundingBox (s : Sphere) (_time0 _time1 : ℚ) : Option BoundingBox :=
  BoundingBox.new (s.center - ⟨s.radius, s.radius, s.radius⟩)
    (s.center + ⟨s.radius, s.radius, s.radius⟩)

/-- A sphere as a `dyn Hittable` trait object. -/
def Sphere.toHittable (sq : ℚ → ℚ) (uv : Vec3 → ℚ × ℚ) (s : Sphere) : HittableObj :=
  ⟨s.hit sq uv, s.boundingBox⟩

/-! ## Path integrator (src/src/render.rs) -/

/-- The exact value of `f64::MAX`. -/
def fMAX : ℚ := (2 ^ 53 - 1) * 2 ^ 971

/-- Rust `render::ray_colour`, with `f64::sqrt` (used by `unit_vector` for the
sky gradient) abstracted as `sq`.  `0.001` is idealised as `1/1000` and the
`f64::MAX` upper bound kept exact. -/
def ray_colour (sq : ℚ → ℚ) (bvh : Bvh) (ray : Ray) (max_depth : ℕ) (use_sky_background : Bool) :
    RGB :=
  match max_depth with
  | 0 => ⟨0, 0, 0⟩
  | d + 1 =>
    match Bvh.hit bvh ray (1 / 1000) fMAX with
    | some hr =>
      match hr.material.scatter ray hr.toHitRecord with
      | some (ray_out, hit_colour) =>
        hr.material.emitted hr.u hr.v hr.point +
          hit_colour * ray_colour sq bvh ray_out d use_sky_background
      | none => hr.material.emitted hr.u hr.v hr.point
    | none =>
      if use_sky_background then
        let unit_direction := Vec3.unit_vector sq ray.direction
        let t := (1 / 2 : ℚ) * (unit_direction.y + 1)
        (1 - t) * RGB.mk 1 1 1 + t * RGB.mk (1 / 2) (7 / 10) 1
      else ⟨0, 0, 0⟩

/-! ## Auxiliary definitions: order on extended rationals, specification
predicates, and the concrete scenes used by counterexamples and
witnesses -/

/-! ## Concrete scene ingredients used by counterexamples and witnesses -/

/-- A concrete stand-in for `f64::sqrt`, correct at the only discriminant
value (`1/4`, with square root exactly `1/2`) arising in the concrete
scenes below. -/
def cSq : ℚ → ℚ := fun _ => 1/2

/-- A concrete stand-in for the transcendental `get_sphere_uv`. -/
def cUv : Vec3 → ℚ × ℚ := fun _ => (0, 0)

/-- A concrete non-scattering, non-emitting material. -/
def cMat : Material := ⟨fun _ _ => none, fun _ _ _ => ⟨0, 0, 0⟩⟩

/-- The claim C6 sphere: radius `0.5` centered at the origin. -/
def cSphere : Sphere := ⟨⟨0, 0, 0⟩, 1/2, cMat⟩

/-- The claim C6 ray: origin `(0,0,0)`, direction `(0,0,-1)`, time `0`. -/
def cRay : Ray := ⟨⟨0, 0, 0⟩, ⟨0, 0, -1⟩, 0⟩

/-- The `[1,3]³` box used by the C2 counterexample. -/
def cBox : BoundingBox := ⟨⟨1, 1, 1⟩, ⟨3, 3, 3⟩, by norm_num⟩

/-- A ray that touches `cBox` exactly at the corner `(1,1,1)`
(parameter `t = 1`) and nowhere else. -/
def cRay2 : Ray := ⟨⟨0, 2, 1⟩, ⟨1, -1, 0⟩, 0⟩

instance : LT ExtQ := ⟨fun a b => ExtQ.blt a b = true⟩

instance : LE ExtQ := ⟨fun a b => ExtQ.ble a b = true⟩

instance : LinearOrder ExtQ where
  le_refl a := by cases a <;> simp [show ∀ x y : ExtQ, (x ≤ y) ↔ ExtQ.ble x y = true from fun _ _ => Iff.rfl, ExtQ.ble, ExtQ.blt]
  le_trans a b c := by
    cases a <;> cases b <;> cases c <;>
      simp [show ∀ x y : ExtQ, (x ≤ y) ↔ ExtQ.ble x y = true from fun _ _ => Iff.rfl, ExtQ.ble, ExtQ.blt] <;> intros <;> linarith
  le_antisymm a b := by
    cases a <;> cases b <;>
      simp [show ∀ x y : ExtQ, (x ≤ y) ↔ ExtQ.ble x y = true from fun _ _ => Iff.rfl, ExtQ.ble, ExtQ.blt] <;> intros <;> linarith
  le_total a b := by
    cases a <;> cases b <;> simp [show ∀ x y : ExtQ, (x ≤ y) ↔ ExtQ.ble x y = true from fun _ _ => Iff.rfl, ExtQ.ble, ExtQ.blt] <;> exact le_total _ _
  lt_iff_le_not_le a b := by
    cases a <;> cases b <;>
      simp [show ∀ x y : ExtQ, (x ≤ y) ↔ ExtQ.ble x y = true from fun _ _ => Iff.rfl, show ∀ x y : ExtQ, (x < y) ↔ ExtQ.blt x y = true from fun _ _ => Iff.rfl, ExtQ.ble, ExtQ.blt] <;> intros <;> linarith
  decidableLE a b := inferInstanceAs (Decidable (ExtQ.ble a b = true))

/-- Membership of parameter `t` in one axis slab. -/
def axMem (bmin bmax o d t : ℚ) : Prop := bmin ≤ o + t * d ∧ o + t * d ≤ bmax

/-- Shorthand for the slab parameters of axis `i` of box `b` and ray `r`. -/
def axisOf (b : BoundingBox) (r : Ray) (i : ℕ) (t : ℚ) : Prop :=
  axMem (b.min.get i) (b.max.get i) (r.origin.get i) (r.direction.get i) t

/-- All three channels are non-negative. -/
def RGB.Nonneg (c : RGB) : Prop := 0 ≤ c.r ∧ 0 ≤ c.g ∧ 0 ≤ c.b

/-- The material contract assumed by the claim: emitted radiance and
scatter attenuation have non-negative channels. -/
def Material.NonnegLight (m : Material) : Prop :=
  (∀ u v p, (m.emitted u v p).Nonneg) ∧
  (∀ rin rec rout att, m.scatter rin rec = some (rout, att) → att.Nonneg)

/-- An object with no bounding box at any time (disallowed inside a BVH). -/
def badObj : HittableObj := ⟨fun _ _ _ => none, fun _ _ => none⟩

/-- An object that never hits but always reports the box `cBox`. -/
def goodObj : HittableObj := ⟨fun _ _ _ => none, fun _ _ => some cBox⟩

/-- A never-hitting object occupying the unit cube at `x ∈ [k, k+1]`,
whose sort key along axis 0 is `k`. -/
def boxObjAt (k : ℚ) : HittableObj :=
  ⟨fun _ _ _ => none, fun _ _ => some ⟨⟨k, 0, 0⟩, ⟨k + 1, 1, 1⟩, by norm_num⟩⟩

/-- The union box of the three-item scene `[boxObjAt 0, boxObjAt 2, boxObjAt 4]`. -/
def cUnionBox : BoundingBox :=
  surrounding_box (surrounding_box ⟨⟨0, 0, 0⟩, ⟨1, 1, 1⟩, by norm_num⟩
    ⟨⟨2, 0, 0⟩, ⟨3, 1, 1⟩, by norm_num⟩) ⟨⟨4, 0, 0⟩, ⟨5, 1, 1⟩, by norm_num⟩

/-- A non-scattering material with constant non-black emission. -/
def c4Mat : Material := ⟨fun _ _ => none, fun _ _ _ => ⟨1, 1/2, 0⟩⟩

def c4Sphere : Sphere := ⟨⟨0, 0, 0⟩, 1/2, c4Mat⟩

def c4Box : BoundingBox := ⟨⟨-(1/2), -(1/2), -(1/2)⟩, ⟨1/2, 1/2, 1/2⟩, by norm_num⟩

/-- A one-leaf BVH holding the emitting sphere. -/
def c4Bvh : Bvh := Bvh.mk (some (.prim (Sphere.toHittable cSq cUv c4Sphere))) none c4Box

/-- The record `c4Bvh` returns for `cRay` over `[0.001, f64::MAX]`. -/
def c4Rec : HitRecordFull := ⟨⟨⟨0, 0, -(1/2)⟩, ⟨0, 0, 1⟩, 1/2, 0, 0, false⟩, c4Mat⟩

/-- Specification: `res` is the least element (by `t`) of the parameter set `P`:
`none` iff `P` is empty, and a record whose `t` realises `P`'s minimum
otherwise. -/
def MinSpec (res : Option HitRecordFull) (P : ℚ → Prop) : Prop :=
  match res with
  | none => ∀ t, P t → False
  | some hr => P hr.t ∧ ∀ t, P t → hr.t ≤ t

/-- The hittable contract the differential claim presupposes: for each ray
the object has a fixed set `cand ray` of intersection parameters, and
`hit ray a b` returns a record of the least candidate in `[a, b]`
(`none` iff there is none). -/
def HitterSpec (cand : Ray → ℚ → Prop) (o : HittableObj) : Prop :=
  ∀ ray a b,
    (o.hit ray a b = none → ∀ t, cand ray t → a ≤ t → t ≤ b → False) ∧
    (∀ hr, o.hit ray a b = some hr →
      cand ray hr.t ∧ a ≤ hr.t ∧ hr.t ≤ b ∧ ∀ t, cand ray t → a ≤ t → t ≤ b → hr.t ≤ t)

/-- The box `box` covers every candidate of `o`: the box test accepts
every non-degenerate window containing a candidate. -/
def CoversCands (cand : Ray → ℚ → Prop) (box : BoundingBox) : Prop :=
  ∀ ray a c t, cand ray t → a ≤ t → t ≤ c → a < c → BoundingBox.hit box ray a c = true

/-- A scene primitive is lawful for the differential claim: it has
candidate-set hit semantics and a bounding box at `(time0, time1)` whose
slab test covers all its candidates. -/
def Lawful (t0 t1 : ℚ) (o : HittableObj) : Prop :=
  ∃ cand, HitterSpec cand o ∧
    ∃ box, o.bounding_box t0 t1 = some box ∧ CoversCands cand box

mutual

def Bvh.size : Bvh → ℕ
  | .mk l r _ => BvhChild.sizeOpt l + BvhChild.sizeOpt r + 1

def BvhChild.sizeOpt : Option BvhChild → ℕ
  | none => 0
  | some c => BvhChild.size c

def BvhChild.size : BvhChild → ℕ
  | .node b => b.size + 1
  | .prim _ => 1

end

mutual

/-- Well-formedness of a built BVH w.r.t. a candidate assignment: every
leaf primitive satisfies the hitter contract, its box covers its
candidates, and boxes nest up the tree. -/
def Bvh.Good (t0 t1 : ℚ) (candOf : HittableObj → Ray → ℚ → Prop) : Bvh → Prop
  | .mk l r bb => BvhChild.GoodOpt t0 t1 candOf bb l ∧ BvhChild.GoodOpt t0 t1 candOf bb r

def BvhChild.GoodOpt (t0 t1 : ℚ) (candOf : HittableObj → Ray → ℚ → Prop) (bb : BoundingBox) :
    Option BvhChild → Prop
  | none => True
  | some c => BvhChild.Good t0 t1 candOf bb c

def BvhChild.Good (t0 t1 : ℚ) (candOf : HittableObj → Ray → ℚ → Prop) (bb : BoundingBox) :
    BvhChild → Prop
  | .node b => Bvh.Good t0 t1 candOf b ∧ boxSub b.box bb
  | .prim o => HitterSpec (candOf o) o ∧
      ∃ box, o.bounding_box t0 t1 = some box ∧ CoversCands (candOf o) box ∧ boxSub box bb

end

/-- The C1 ray: origin `(0,0,2)` looking down the `z` axis at the C6
sphere. -/
def c1Ray : Ray := ⟨⟨0, 0, 2⟩, ⟨0, 0, -1⟩, 0⟩

/-- The bounding box of the C6 sphere (radius `1/2` at the origin). -/
def c1Box : BoundingBox := ⟨⟨-(1/2), -(1/2), -(1/2)⟩, ⟨1/2, 1/2, 1/2⟩, by norm_num⟩

/-- The C6 sphere as a scene primitive. -/
def c1Obj : HittableObj := Sphere.toHittable cSq cUv cSphere

/-! ## Component lemmas -/

@[simp] theorem Vec3.add_x (a b : Vec3) : (a + b).x = a.x + b.x := rfl

@[simp] theorem Vec3.add_y (a b : Vec3) : (a + b).y = a.y + b.y := rfl

@[simp] theorem Vec3.add_z (a b : Vec3) : (a + b).z = a.z + b.z := rfl

@[simp] theorem Vec3.sub_x (a b : Vec3) : (a - b).x = a.x - b.x := rfl

@[simp] theorem Vec3.sub_y (a b : Vec3) : (a - b).y = a.y - b.y := rfl

@[simp] theorem Vec3.sub_z (a b : Vec3) : (a - b).z = a.z - b.z := rfl

@[simp] theorem Vec3.smul_x (t : ℚ) (v : Vec3) : (t * v).x = t * v.x := rfl

@[simp] theorem Vec3.smul_y (t : ℚ) (v : Vec3) : (t * v).y = t * v.y := rfl

@[simp] theorem Vec3.smul_z (t : ℚ) (v : Vec3) : (t * v).z = t * v.z := rfl

@[simp] theorem Vec3.div_x (v : Vec3) (t : ℚ) : (v / t).x = v.x / t := rfl

@[simp] theorem Vec3.div_y (v : Vec3) (t : ℚ) : (v / t).y = v.y / t := rfl

@[simp] theorem Vec3.div_z (v : Vec3) (t : ℚ) : (v / t).z = v.z / t := rfl

@[simp] theorem RGB.add_r (a b : RGB) : (a + b).r = a.r + b.r := rfl

@[simp] theorem RGB.add_g (a b : RGB) : (a + b).g = a.g + b.g := rfl

@[simp] theorem RGB.add_b (a b : RGB) : (a + b).b = a.b + b.b := rfl

@[simp] theorem RGB.mul_r (a b : RGB) : (a * b).r = a.r * b.r := rfl

@[simp] theorem RGB.mul_g (a b : RGB) : (a * b).g = a.g * b.g := rfl

@[simp] theorem RGB.mul_b (a b : RGB) : (a * b).b = a.b * b.b := rfl

@[simp] theorem RGB.smul_r (t : ℚ) (c : RGB) : (t * c).r = t * c.r := rfl

@[simp] theorem RGB.smul_g (t : ℚ) (c : RGB) : (t * c).g = t * c.g := rfl

@[simp] theorem RGB.smul_b (t : ℚ) (c : RGB) : (t * c).b = t * c.b := rfl

@[simp] theorem Ray.at_x (r : Ray) (t : ℚ) : (r.at t).x = r.origin.x + t * r.direction.x := rfl

@[simp] theorem Ray.at_y (r : Ray) (t : ℚ) : (r.at t).y = r.origin.y + t * r.direction.y := rfl

@[simp] theorem Ray.at_z (r : Ray) (t : ℚ) : (r.at t).z = r.origin.z + t * r.direction.z := rfl

theorem Vec3.dot_neg_one (v w : Vec3) : v.dot ((-1 : ℚ) * w) = -(v.dot w) := by
  simp [Vec3.dot]; ring

theorem BoundingBox.ext_minmax : ∀ {a b : BoundingBox}, a.min = b.min → a.max = b.max → a = b
  | ⟨_, _, _⟩, ⟨_, _, _⟩, rfl, rfl => rfl

@[simp] theorem ExtQ.blt_fin_fin (a b : ℚ) : ExtQ.blt (.fin a) (.fin b) = decide (a < b) := rfl

@[simp] theorem ExtQ.blt_fin_posInf (a : ℚ) : ExtQ.blt (.fin a) .posInf = true := rfl

@[simp] theorem ExtQ.blt_posInf (a : ExtQ) : ExtQ.blt .posInf a = false := by cases a <;> rfl

@[simp] theorem ExtQ.blt_negInf_fin (a : ℚ) : ExtQ.blt .negInf (.fin a) = true := rfl

@[simp] theorem ExtQ.blt_fin_negInf (a : ℚ) : ExtQ.blt (.fin a) .negInf = false := rfl

@[simp] theorem ExtQ.ble_def (a b : ExtQ) : ExtQ.ble a b = !(ExtQ.blt b a) := rfl

/-! ## C3: recursion cutoff -/

/-- C3: for every square-root model, scene root, ray and background mode,
the path integrator with a remaining-bounce budget of 0 returns exactly
black. -/
theorem C3_recursion_cutoff (sq : ℚ → ℚ) (bvh : Bvh) (ray : Ray) (use_sky : Bool) :
    ray_colour sq bvh ray 0 use_sky = ⟨0, 0, 0⟩ := rfl

/-! ## C10: get_face_normal -/

/-- C10: `get_face_normal` reports `front_face` exactly when
`ray.direction ⬝ outward_normal < 0`, returns the normal unchanged in that
case and negated otherwise, and the returned normal never has positive dot
product with the ray direction. -/
theorem C10_get_face_normal (ray : Ray) (outward_normal : Vec3) :
    (get_face_normal ray outward_normal).1 = decide (ray.direction.dot outward_normal < 0) ∧
    (get_face_normal ray outward_normal).2 =
      (if ray.direction.dot outward_normal < 0 then outward_normal
       else (-1 : ℚ) * outward_normal) ∧
    ray.direction.dot (get_face_normal ray outward_normal).2 ≤ 0 := by
  unfold get_face_normal
  by_cases h : ray.direction.dot outward_normal < 0
  · refine ⟨rfl, by simp [h], ?_⟩
    simp only [decide_eq_true_eq]
    rw [if_pos h]
    exact le_of_lt h
  · refine ⟨rfl, by simp [h], ?_⟩
    simp only [decide_eq_true_eq]
    rw [if_neg h, Vec3.dot_neg_one]
    push_neg at h
    linarith

/-! ## C5: surrounding_box is a monoid -/

/-- C5: `surrounding_box` is associative, commutative and idempotent, and
its result contains both inputs (rationals have no NaN, so the non-NaN
proviso is automatic). -/
theorem C5_surrounding_box_monoid (A B C : BoundingBox) :
    surrounding_box (surrounding_box A B) C = surrounding_box A (surrounding_box B C) ∧
    surrounding_box A B = surrounding_box B A ∧
    surrounding_box A A = A ∧
    boxSub A (surrounding_box A B) ∧ boxSub B (surrounding_box A B) := by
  refine ⟨?_, ?_, ?_, ?_, ?_⟩
  · apply BoundingBox.ext_minmax <;>
      simp [surrounding_box, Vec3.mk.injEq, min_assoc, max_assoc]
  · apply BoundingBox.ext_minmax <;>
      simp [surrounding_box, Vec3.mk.injEq, min_comm, max_comm]
  · apply BoundingBox.ext_minmax <;>
      simp [surrounding_box]
  · exact ⟨min_le_left _ _, min_le_left _ _, min_le_left _ _,
      le_max_left _ _, le_max_left _ _, le_max_left _ _⟩
  · exact ⟨min_le_right _ _, min_le_right _ _, min_le_right _ _,
      le_max_right _ _, le_max_right _ _, le_max_right _ _⟩

/-! ## Literal-level operation lemmas (for concrete evaluations) -/

@[simp] theorem Vec3.mk_sub (a b c d e f : ℚ) :
    (⟨a, b, c⟩ - ⟨d, e, f⟩ : Vec3) = ⟨a - d, b - e, c - f⟩ := rfl

@[simp] theorem Vec3.mk_add (a b c d e f : ℚ) :
    (⟨a, b, c⟩ + ⟨d, e, f⟩ : Vec3) = ⟨a + d, b + e, c + f⟩ := rfl

@[simp] theorem Vec3.mk_smul (t a b c : ℚ) :
    (t * (⟨a, b, c⟩ : Vec3)) = ⟨t * a, t * b, t * c⟩ := rfl

@[simp] theorem Vec3.mk_div (a b c t : ℚ) :
    ((⟨a, b, c⟩ : Vec3) / t) = ⟨a / t, b / t, c / t⟩ := rfl


/-! ## C6: concrete sphere scenario -/

/-- C6 (amended): for the radius-`1/2` sphere at the origin and the ray
from the origin with direction `(0,0,-1)`, over any window with
`-1/2 < t_min ≤ 0` and `1 ≤ t_max` (not every window containing `[0,1]`:
if `t_min ≤ -1/2`, the first quadratic root `-1/2` is accepted instead),
`Sphere::hit` reports `t = 1/2`, `point = (0,0,-1/2)`, `front_face = false`
and the *flipped* normal `(0,0,1)` — not `(0,0,-1)` as claimed, since for a
back-face hit `get_face_normal` negates the outward normal. -/
theorem C6_sphere_hit_inside_ray (sq : ℚ → ℚ) (uv : Vec3 → ℚ × ℚ) (mat : Material)
    (t_min t_max : ℚ) (hsq : sq (1/4) = 1/2)
    (h1 : -(1/2) < t_min) (h2 : t_min ≤ 0) (h3 : 1 ≤ t_max) :
    ∃ hr, Sphere.hit sq uv ⟨⟨0, 0, 0⟩, 1/2, mat⟩ ⟨⟨0, 0, 0⟩, ⟨0, 0, -1⟩, 0⟩ t_min t_max = some hr ∧
      hr.t = 1/2 ∧ hr.point = ⟨0, 0, -(1/2)⟩ ∧ hr.normal = ⟨0, 0, 1⟩ ∧ hr.front_face = false := by
  simp only [Sphere.hit, Vec3.dot, Vec3.len_squared, get_face_normal]
  norm_num
  rw [hsq]
  have hc : (-(1/2 : ℚ) < t_min ∨ t_max < -(1/2)) := Or.inl h1
  simp only [hc, if_true, Ray.at]
  norm_num
  exact ⟨_, ⟨⟨by linarith, by linarith⟩, rfl⟩, rfl, rfl, rfl, rfl⟩

/-- C6 counterexample: at the window `[0, 1]` (contained in `[0,1]`-windows
quantified by the claim) the returned normal is `(0,0,1)`, not the claimed
`(0,0,-1)`; and at the window `[-1, 1]` (which also contains `[0, 1]`) the
returned `t` is `-1/2`, not the claimed `1/2`. -/
theorem C6_counterexample :
    (∃ hr, Sphere.hit cSq cUv cSphere cRay 0 1 = some hr ∧ hr.normal = ⟨0, 0, 1⟩ ∧
       hr.normal ≠ ⟨0, 0, -1⟩) ∧
    (∃ hr, Sphere.hit cSq cUv cSphere cRay (-1) 1 = some hr ∧ hr.t = -(1/2) ∧ hr.t ≠ 1/2) := by
  constructor
  · simp only [Sphere.hit, cSq, cUv, cSphere, cRay, Vec3.dot, Vec3.len_squared, get_face_normal,
      Ray.at]
    norm_num [Vec3.mk.injEq]
  · simp only [Sphere.hit, cSq, cUv, cSphere, cRay, Vec3.dot, Vec3.len_squared, get_face_normal,
      Ray.at]
    norm_num [Vec3.mk.injEq]

/-- C6 witness: the amended theorem applied at the concrete window
`[0, 1]` with the concrete square-root model `cSq`. -/
theorem C6_witness :
    ∃ hr, Sphere.hit cSq cUv ⟨⟨0, 0, 0⟩, 1/2, cMat⟩ ⟨⟨0, 0, 0⟩, ⟨0, 0, -1⟩, 0⟩ 0 1 = some hr ∧
      hr.t = 1/2 ∧ hr.point = ⟨0, 0, -(1/2)⟩ ∧ hr.normal = ⟨0, 0, 1⟩ ∧ hr.front_face = false :=
  C6_sphere_hit_inside_ray cSq cUv cMat 0 1 rfl (by norm_num) le_rfl le_rfl

/-! ## C2: the slab test -/


/-- C2 counterexample: the ray `cRay2` touches the box `cBox` at the single
parameter `t = 1 ∈ [0, 1000]` — a non-empty geometric intersection — yet
`BoundingBox::hit` returns `false` (the strict `t_max <= t_min` early exit
rejects single-point grazing contact), so the claimed "no false negatives"
iff fails. -/
theorem C2_counterexample :
    BoundingBox.hit cBox cRay2 0 1000 = false ∧
    (0 : ℚ) ≤ 1 ∧ (1 : ℚ) ≤ 1000 ∧ cBox.contains (cRay2.at 1) := by
  refine ⟨?_, by norm_num, by norm_num, ?_⟩
  · simp only [BoundingBox.hit, slabGo, slabAxis, Vec3.get, cBox, cRay2, ExtQ.blt, ExtQ.ble]
    norm_num
  · simp only [BoundingBox.contains, cBox, cRay2, Ray.at]
    norm_num


theorem ExtQ.lt_def (a b : ExtQ) : a < b ↔ ExtQ.blt a b = true := Iff.rfl

theorem ExtQ.le_def (a b : ExtQ) : a ≤ b ↔ ExtQ.ble a b = true := Iff.rfl


@[simp] theorem ExtQ.fin_lt_fin {a b : ℚ} : ExtQ.fin a < ExtQ.fin b ↔ a < b := by
  simp [ExtQ.lt_def, ExtQ.blt]

@[simp] theorem ExtQ.fin_le_fin {a b : ℚ} : ExtQ.fin a ≤ ExtQ.fin b ↔ a ≤ b := by
  simp [ExtQ.le_def, ExtQ.ble, ExtQ.blt]

@[simp] theorem ExtQ.le_posInf (a : ExtQ) : a ≤ ExtQ.posInf := by
  cases a <;> simp [ExtQ.le_def, ExtQ.ble, ExtQ.blt]

@[simp] theorem ExtQ.negInf_le (a : ExtQ) : ExtQ.negInf ≤ a := by
  cases a <;> simp [ExtQ.le_def, ExtQ.ble, ExtQ.blt]

@[simp] theorem ExtQ.not_posInf_le_fin (a : ℚ) : ¬ ExtQ.posInf ≤ ExtQ.fin a := by
  simp [ExtQ.le_def, ExtQ.ble, ExtQ.blt]

@[simp] theorem ExtQ.not_fin_le_negInf (a : ℚ) : ¬ ExtQ.fin a ≤ ExtQ.negInf := by
  simp [ExtQ.le_def, ExtQ.ble, ExtQ.blt]

theorem ExtQ.ble_eq_true_iff {a b : ExtQ} : ExtQ.ble a b = true ↔ a ≤ b := Iff.rfl

theorem ExtQ.ble_eq_false_iff {a b : ExtQ} : ExtQ.ble a b = false ↔ b < a := by
  rw [← Bool.not_eq_true, ExtQ.ble_eq_true_iff, not_le]

/-- Between any two `ExtQ` bounds in strict order there are two rationals
in weak order. -/
theorem ExtQ.dense {a b : ExtQ} (h : a < b) :
    ∃ t u : ℚ, t < u ∧ a ≤ ExtQ.fin t ∧ ExtQ.fin u ≤ b := by
  cases a with
  | negInf =>
    cases b with
    | negInf => exact absurd h (lt_irrefl _)
    | fin q => exact ⟨q - 1, q, by linarith, by simp, by simp⟩
    | posInf => exact ⟨0, 1, by norm_num, by simp, by simp⟩
  | fin p =>
    cases b with
    | negInf => exact absurd h (by simp [ExtQ.lt_def, ExtQ.blt])
    | fin q => exact ⟨p, q, by simpa using h, le_refl _, le_refl _⟩
    | posInf => exact ⟨p, p + 1, by linarith, le_refl _, by simp⟩
  | posInf => exact absurd h (by simp [ExtQ.lt_def, ExtQ.blt])


theorem updMax_ge_left {a : ExtQ} {t : ℚ} :
    a ≤ (if ExtQ.blt a (.fin t) then ExtQ.fin t else a) := by
  by_cases h : ExtQ.blt a (.fin t) = true
  · simp only [h, if_true]; exact le_of_lt h
  · rw [if_neg h]

theorem updMax_ge_right {a : ExtQ} {t : ℚ} :
    ExtQ.fin t ≤ (if ExtQ.blt a (.fin t) then ExtQ.fin t else a) := by
  by_cases h : ExtQ.blt a (.fin t) = true
  · simp only [h, if_true]; exact le_refl _
  · simp only [h, if_false]; exact not_lt.mp h

theorem updMax_le {a x : ExtQ} {t : ℚ} (h1 : a ≤ x) (h2 : ExtQ.fin t ≤ x) :
    (if ExtQ.blt a (.fin t) then ExtQ.fin t else a) ≤ x := by
  by_cases h : ExtQ.blt a (.fin t) = true <;> simp only [h, if_true, if_false] <;> assumption

theorem updMin_le_left {a : ExtQ} {t : ℚ} :
    (if ExtQ.blt (.fin t) a then ExtQ.fin t else a) ≤ a := by
  by_cases h : ExtQ.blt (.fin t) a = true
  · simp only [h, if_true]; exact le_of_lt h
  · rw [if_neg h]

theorem updMin_le_right {a : ExtQ} {t : ℚ} :
    (if ExtQ.blt (.fin t) a then ExtQ.fin t else a) ≤ ExtQ.fin t := by
  by_cases h : ExtQ.blt (.fin t) a = true
  · simp only [h, if_true]; exact le_refl _
  · simp only [h, if_false]; exact not_lt.mp h

theorem updMin_ge {a x : ExtQ} {t : ℚ} (h1 : x ≤ a) (h2 : x ≤ ExtQ.fin t) :
    x ≤ (if ExtQ.blt (.fin t) a then ExtQ.fin t else a) := by
  by_cases h : ExtQ.blt (.fin t) a = true <;> simp only [h, if_true, if_false] <;> assumption

theorem slabAxis_fst_ge {bmin bmax o d : ℚ} {tmin tmax : ExtQ} :
    tmin ≤ (slabAxis bmin bmax o d tmin tmax).1 := by
  unfold slabAxis
  by_cases hd : d = 0
  · simp only [hd, if_true, reduceIte]
    by_cases h0 : 0 < bmin - o <;> simp [h0]
  · simp only [hd, if_false, reduceIte]
    exact updMax_ge_left

theorem slabAxis_snd_le {bmin bmax o d : ℚ} {tmin tmax : ExtQ} :
    (slabAxis bmin bmax o d tmin tmax).2 ≤ tmax := by
  unfold slabAxis
  by_cases hd : d = 0
  · simp only [hd, if_true, reduceIte]
    by_cases h0 : bmax - o < 0 <;> simp [h0]
  · simp only [hd, if_false, reduceIte]
    exact updMin_le_left

theorem slabAxis_fst_le {bmin bmax o d : ℚ} {tmin tmax : ExtQ} {t : ℚ}
    (hm : axMem bmin bmax o d t) (h : tmin ≤ ExtQ.fin t) :
    (slabAxis bmin bmax o d tmin tmax).1 ≤ ExtQ.fin t := by
  obtain ⟨hm1, hm2⟩ := hm
  unfold slabAxis
  by_cases hd : d = 0
  · subst hd
    simp only [mul_zero, add_zero] at hm1 hm2
    have h0 : ¬ (0 < bmin - o) := by linarith
    simp only [if_true, reduceIte, h0, if_false]
    exact h
  · simp only [hd, if_false, reduceIte]
    apply updMax_le h
    rcases lt_or_gt_of_ne hd with hneg | hpos
    · have hinv : ¬ (0 ≤ 1 / d) := by
        simp only [not_le]
        exact one_div_neg.mpr hneg
      simp only [hinv, if_false, ExtQ.fin_le_fin, mul_one_div]
      rw [div_le_iff_of_neg hneg]
      linarith
    · have hinv : (0 ≤ 1 / d) := le_of_lt (one_div_pos.mpr hpos)
      simp only [hinv, if_true, reduceIte, ExtQ.fin_le_fin, mul_one_div]
      rw [div_le_iff hpos]
      linarith

theorem slabAxis_le_snd {bmin bmax o d : ℚ} {tmin tmax : ExtQ} {u : ℚ}
    (hm : axMem bmin bmax o d u) (h : ExtQ.fin u ≤ tmax) :
    ExtQ.fin u ≤ (slabAxis bmin bmax o d tmin tmax).2 := by
  obtain ⟨hm1, hm2⟩ := hm
  unfold slabAxis
  by_cases hd : d = 0
  · subst hd
    simp only [mul_zero, add_zero] at hm1 hm2
    have h0 : ¬ (bmax - o < 0) := by linarith
    simp only [if_true, reduceIte, h0, if_false]
    exact h
  · simp only [hd, if_false, reduceIte]
    apply updMin_ge h
    rcases lt_or_gt_of_ne hd with hneg | hpos
    · have hinv : ¬ (0 ≤ 1 / d) := by
        simp only [not_le]
        exact one_div_neg.mpr hneg
      simp only [hinv, if_false, ExtQ.fin_le_fin, mul_one_div]
      rw [le_div_iff_of_neg hneg]
      linarith
    · have hinv : (0 ≤ 1 / d) := le_of_lt (one_div_pos.mpr hpos)
      simp only [hinv, if_true, reduceIte, ExtQ.fin_le_fin, mul_one_div]
      rw [le_div_iff hpos]
      linarith

theorem slabAxis_sound {bmin bmax o d : ℚ} {tmin tmax : ExtQ} {t : ℚ}
    (h1 : (slabAxis bmin bmax o d tmin tmax).1 ≤ ExtQ.fin t)
    (h2 : ExtQ.fin t ≤ (slabAxis bmin bmax o d tmin tmax).2) :
    tmin ≤ ExtQ.fin t ∧ ExtQ.fin t ≤ tmax ∧ axMem bmin bmax o d t := by
  unfold slabAxis at h1 h2
  by_cases hd : d = 0
  · subst hd
    simp only [if_true, reduceIte] at h1 h2
    by_cases ha : 0 < bmin - o
    · rw [if_pos ha] at h1
      exact absurd h1 (ExtQ.not_posInf_le_fin t)
    · rw [if_neg ha] at h1
      by_cases hb : bmax - o < 0
      · rw [if_pos hb] at h2
        exact absurd h2 (ExtQ.not_fin_le_negInf t)
      · rw [if_neg hb] at h2
        exact ⟨h1, h2, by constructor <;> simp <;> linarith⟩
  · simp only [hd, if_false, reduceIte] at h1 h2
    have ht0 := le_trans (updMax_ge_right (a := tmin)) h1
    have htmin := le_trans (updMax_ge_left (a := tmin)) h1
    have ht1 := le_trans h2 (updMin_le_right (a := tmax))
    have htmax := le_trans h2 (updMin_le_left (a := tmax))
    refine ⟨htmin, htmax, ?_⟩
    rcases lt_or_gt_of_ne hd with hneg | hpos
    · have hinv : ¬ (0 ≤ 1 / d) := by
        simp only [not_le]
        exact one_div_neg.mpr hneg
      simp only [hinv, if_false, ExtQ.fin_le_fin, mul_one_div] at ht0 ht1
      rw [div_le_iff_of_neg hneg] at ht0
      rw [le_div_iff_of_neg hneg] at ht1
      constructor <;> linarith
    · have hinv : (0 ≤ 1 / d) := le_of_lt (one_div_pos.mpr hpos)
      simp only [hinv, if_true, reduceIte, ExtQ.fin_le_fin, mul_one_div] at ht0 ht1
      rw [div_le_iff hpos] at ht0
      rw [le_div_iff hpos] at ht1
      constructor <;> linarith


theorem slabGo_sound (b : BoundingBox) (r : Ray) :
    ∀ (axes : List ℕ) (tmin tmax : ExtQ), slabGo b r axes tmin tmax = true → tmin < tmax →
    ∃ t u : ℚ, t < u ∧ tmin ≤ ExtQ.fin t ∧ ExtQ.fin u ≤ tmax ∧
      ∀ i ∈ axes, axisOf b r i t ∧ axisOf b r i u := by
  intro axes
  induction axes with
  | nil =>
    intro tmin tmax _ hlt
    obtain ⟨t, u, htu, h1, h2⟩ := ExtQ.dense hlt
    exact ⟨t, u, htu, h1, h2, by simp⟩
  | cons i rest ih =>
    intro tmin tmax hrun hlt
    rw [slabGo] at hrun
    by_cases hc : ExtQ.ble
        (slabAxis (b.min.get i) (b.max.get i) (r.origin.get i) (r.direction.get i) tmin tmax).2
        (slabAxis (b.min.get i) (b.max.get i) (r.origin.get i) (r.direction.get i) tmin tmax).1 = true
    · rw [if_pos hc] at hrun
      exact absurd hrun (by simp)
    · rw [if_neg hc] at hrun
      rw [Bool.not_eq_true] at hc
      have hplt := ExtQ.ble_eq_false_iff.mp hc
      obtain ⟨t, u, htu, h1, h2, hmem⟩ := ih _ _ hrun hplt
      have hst := slabAxis_sound h1 (le_trans (ExtQ.fin_le_fin.mpr (le_of_lt htu)) h2)
      have hsu := slabAxis_sound (le_trans h1 (ExtQ.fin_le_fin.mpr (le_of_lt htu))) h2
      refine ⟨t, u, htu, hst.1, hsu.2.1, ?_⟩
      intro j hj
      rcases List.mem_cons.mp hj with hji | hjr
      · subst hji
        exact ⟨hst.2.2, hsu.2.2⟩
      · exact hmem j hjr

theorem slabGo_complete (b : BoundingBox) (r : Ray) :
    ∀ (axes : List ℕ) (tmin tmax : ExtQ) (t u : ℚ), t < u →
      tmin ≤ ExtQ.fin t → ExtQ.fin u ≤ tmax →
      (∀ i ∈ axes, axisOf b r i t ∧ axisOf b r i u) →
      slabGo b r axes tmin tmax = true := by
  intro axes
  induction axes with
  | nil => intro _ _ _ _ _ _ _ _; rfl
  | cons i rest ih =>
    intro tmin tmax t u htu h1 h2 hmem
    have hmi := hmem i (List.mem_cons_self i rest)
    have hp1 : (slabAxis (b.min.get i) (b.max.get i) (r.origin.get i) (r.direction.get i)
        tmin tmax).1 ≤ ExtQ.fin t := slabAxis_fst_le hmi.1 h1
    have hp2 : ExtQ.fin u ≤ (slabAxis (b.min.get i) (b.max.get i) (r.origin.get i)
        (r.direction.get i) tmin tmax).2 := slabAxis_le_snd hmi.2 h2
    have hplt : (slabAxis (b.min.get i) (b.max.get i) (r.origin.get i) (r.direction.get i)
        tmin tmax).1 < (slabAxis (b.min.get i) (b.max.get i) (r.origin.get i)
        (r.direction.get i) tmin tmax).2 :=
      lt_of_le_of_lt hp1 (lt_of_lt_of_le (ExtQ.fin_lt_fin.mpr htu) hp2)
    rw [slabGo]
    rw [if_neg (by rw [Bool.not_eq_true, ExtQ.ble_eq_false_iff]; exact hplt)]
    exact ih _ _ t u htu hp1 hp2 (fun j hj => hmem j (List.mem_cons_of_mem i hj))

theorem contains_iff_axes (b : BoundingBox) (r : Ray) (t : ℚ) :
    b.contains (r.at t) ↔ ∀ i ∈ ([0, 1, 2] : List ℕ), axisOf b r i t := by
  simp only [List.forall_mem_cons, List.forall_mem_nil, axisOf, axMem, Vec3.get,
    BoundingBox.contains, Ray.at_x, Ray.at_y, Ray.at_z, and_true]
  tauto

/-- The exact characterization of the slab test: `BoundingBox::hit` holds
iff the closed slab intersection over the window contains two distinct
parameters. -/
theorem box_hit_iff (b : BoundingBox) (r : Ray) (t_min t_max : ℚ) :
    BoundingBox.hit b r t_min t_max = true ↔
      ∃ t u : ℚ, t_min ≤ t ∧ t < u ∧ u ≤ t_max ∧
        b.contains (r.at t) ∧ b.contains (r.at u) := by
  constructor
  · intro h
    have hlt : ExtQ.fin t_min < ExtQ.fin t_max := by
      by_contra hle
      rw [not_lt] at hle
      rw [BoundingBox.hit, slabGo] at h
      rw [if_pos] at h
      · exact absurd h (by simp)
      · exact ExtQ.ble_eq_true_iff.mpr (le_trans slabAxis_snd_le (le_trans hle slabAxis_fst_ge))
    obtain ⟨t, u, htu, h1, h2, hmem⟩ := slabGo_sound b r [0, 1, 2] _ _ h hlt
    exact ⟨t, u, ExtQ.fin_le_fin.mp h1, htu, ExtQ.fin_le_fin.mp h2,
      (contains_iff_axes b r t).mpr (fun i hi => (hmem i hi).1),
      (contains_iff_axes b r u).mpr (fun i hi => (hmem i hi).2)⟩
  · rintro ⟨t, u, h1, htu, h2, hc1, hc2⟩
    apply slabGo_complete b r [0, 1, 2] _ _ t u htu
      (ExtQ.fin_le_fin.mpr h1) (ExtQ.fin_le_fin.mpr h2)
    intro i hi
    exact ⟨(contains_iff_axes b r t).mp hc1 i hi, (contains_iff_axes b r u).mp hc2 i hi⟩

/-- C2 (amended): `BoundingBox::hit` returns `true` iff the closed slab
intersection of the ray segment with the box over `[t_min, t_max]` contains
at least two distinct parameters (equivalently, has positive length); a
single-parameter grazing contact is rejected by the strict
`t_max <= t_min` early exit, so the unqualified "non-empty intersection"
iff of the claim fails while soundness (no false positives) holds. -/
theorem C2_slab_test_characterization (b : BoundingBox) (r : Ray) (t_min t_max : ℚ) :
    BoundingBox.hit b r t_min t_max = true ↔
      ∃ t u : ℚ, t_min ≤ t ∧ t < u ∧ u ≤ t_max ∧
        b.contains (r.at t) ∧ b.contains (r.at u) :=
  box_hit_iff b r t_min t_max

/-! ## C9: energy non-negativity -/


/-- The sky gradient has non-negative channels, for any square-root model
that is non-negative and underestimates the true square root by at most a
factor of 2 (true of correctly-rounded IEEE sqrt). -/
theorem sky_nonneg (sq : ℚ → ℚ) (hsq : ∀ q : ℚ, 0 ≤ q → 0 ≤ sq q ∧ q ≤ 4 * sq q * sq q)
    (v : Vec3) :
    ((1 - (1/2 : ℚ) * ((Vec3.unit_vector sq v).y + 1)) * RGB.mk 1 1 1 +
      ((1/2 : ℚ) * ((Vec3.unit_vector sq v).y + 1)) * RGB.mk (1/2) (7/10) 1).Nonneg := by
  have hq : (0 : ℚ) ≤ v.len_squared := by
    unfold Vec3.len_squared
    nlinarith [sq_nonneg v.x, sq_nonneg v.y, sq_nonneg v.z]
  obtain ⟨hs0, hs4⟩ := hsq v.len_squared hq
  have hy2 : v.y * v.y ≤ v.len_squared := by
    unfold Vec3.len_squared
    nlinarith [sq_nonneg v.x, sq_nonneg v.z]
  have hyb : -2 ≤ (Vec3.unit_vector sq v).y ∧ (Vec3.unit_vector sq v).y ≤ 2 := by
    simp only [Vec3.unit_vector, Vec3.len, Vec3.div_y]
    rcases eq_or_lt_of_le hs0 with hz | hpos
    · rw [← hz, div_zero]
      norm_num
    · rw [div_le_iff hpos, le_div_iff hpos]
      constructor <;> nlinarith
  refine ⟨?_, ?_, ?_⟩ <;> simp only [RGB.add_r, RGB.add_g, RGB.add_b,
    RGB.smul_r, RGB.smul_g, RGB.smul_b] <;> obtain ⟨hl, hr⟩ := hyb <;> nlinarith

/-- C9: for every square-root model accurate within a factor of two, every
scene whose returned hit materials all satisfy the non-negativity contract,
and every ray, depth and background mode, the path integrator returns a
colour with all channels non-negative. -/
theorem C9_ray_colour_nonneg (sq : ℚ → ℚ) (bvh : Bvh)
    (hsq : ∀ q : ℚ, 0 ≤ q → 0 ≤ sq q ∧ q ≤ 4 * sq q * sq q)
    (hmat : ∀ ray a b hr, Bvh.hit bvh ray a b = some hr → hr.material.NonnegLight) :
    ∀ (depth : ℕ) (ray : Ray) (use_sky : Bool),
      (ray_colour sq bvh ray depth use_sky).Nonneg := by
  intro depth
  induction depth with
  | zero => exact fun _ _ => ⟨le_refl 0, le_refl 0, le_refl 0⟩
  | succ d ih =>
    intro ray use_sky
    cases hh : Bvh.hit bvh ray (1 / 1000) fMAX with
    | some hr =>
      have hm := hmat ray _ _ hr hh
      cases hs : hr.material.scatter ray hr.toHitRecord with
      | some pr =>
        obtain ⟨rout, att⟩ := pr
        obtain ⟨hatt1, hatt2, hatt3⟩ := hm.2 ray hr.toHitRecord rout att hs
        obtain ⟨he1, he2, he3⟩ := hm.1 hr.u hr.v hr.point
        obtain ⟨hc1, hc2, hc3⟩ := ih rout use_sky
        rw [ray_colour]
        simp only [hh, hs]
        exact ⟨by simp; nlinarith, by simp; nlinarith, by simp; nlinarith⟩
      | none =>
        rw [ray_colour]
        simp only [hh, hs]
        exact hm.1 hr.u hr.v hr.point
    | none =>
      rw [ray_colour]
      simp only [hh]
      cases use_sky with
      | true => simpa using sky_nonneg sq hsq ray.direction
      | false => simpa using ⟨le_refl (0 : ℚ), le_refl (0 : ℚ), le_refl (0 : ℚ)⟩

/-- C9 witness: the non-negativity theorem applied to a concrete childless
BVH node (whose `hit` is always `none`), a concrete ray, depth 3, sky
background, and the square-root model `fun q => (q+1)/2`. -/
theorem C9_witness :
    (ray_colour (fun q => (q + 1) / 2) (Bvh.mk none none cBox)
      ⟨⟨0, 0, 0⟩, ⟨0, 0, 1⟩, 0⟩ 3 true).Nonneg := by
  apply C9_ray_colour_nonneg
  · intro q hq
    constructor
    · positivity
    · nlinarith
  · intro ray a b hr h
    have hz : Bvh.hit (Bvh.mk none none cBox) ray a b = none := by
      cases hb : BoundingBox.hit cBox ray a b <;> simp [Bvh.hit, hb]
    rw [hz] at h
    exact Option.noConfusion h

/-- Fuel irrelevance: any fuel at least the item count gives the same
result, so `Bvh.build_internal`'s choice `fuel = items.length` computes
the Rust recursion (whose calls always strictly shrink the list). -/
theorem Bvh.buildFuel_congr (t0 t1 : ℚ) :
    ∀ (f1 : ℕ) (items : List HittableObj) (d : ℕ) (f2 : ℕ),
      items.length ≤ f1 → items.length ≤ f2 →
      Bvh.buildFuel t0 t1 f1 items d = Bvh.buildFuel t0 t1 f2 items d := by
  intro f1
  induction f1 with
  | zero =>
    intro items d f2 h1 _
    have hnil : items = [] := List.eq_nil_of_length_eq_zero (Nat.le_zero.mp h1)
    subst hnil
    cases f2 with
    | zero => rfl
    | succ f2 => simp [Bvh.buildFuel]
  | succ f1 ih =>
    intro items d f2 h1 h2
    cases f2 with
    | zero =>
      have hnil : items = [] := List.eq_nil_of_length_eq_zero (Nat.le_zero.mp h2)
      subst hnil
      simp [Bvh.buildFuel]
    | succ f2 =>
      rcases items with _ | ⟨o1, _ | ⟨o2, _ | ⟨o3, rest⟩⟩⟩
      · rfl
      · rfl
      · rfl
      · simp only [Bvh.buildFuel]
        cases hf : (o1 :: o2 :: o3 :: rest).foldl
            (fun bb item => surrounding_box_option bb (item.bounding_box t0 t1)) none with
        | none => rfl
        | some bb =>
          simp only []
          have hlen : (o1 :: o2 :: o3 :: rest).length = rest.length + 3 := by simp
          have hmid1 : ((o1 :: o2 :: o3 :: rest).mergeSort
              (fun a b => decide (boxKey bb.longestAxis a ≤ boxKey bb.longestAxis b))).length
              = rest.length + 3 := by
            rw [List.length_mergeSort]; exact hlen
          rw [ih _ (d + 1) f2, ih _ (d + 1) f2]
          · rw [List.length_drop, hmid1, hlen]
            omega
          · rw [List.length_drop, hmid1, hlen]
            omega
          · rw [List.length_take, hmid1, hlen]
            omega
          · rw [List.length_take, hmid1, hlen]
            omega

example (t0 t1 : ℚ) (d : ℕ) : Bvh.build_internal t0 t1 [] d = none := by
  simp [Bvh.build_internal, Bvh.buildFuel]

example (t0 t1 : ℚ) (d : ℕ) (o : HittableObj) (h : o.bounding_box t0 t1 = none) :
    Bvh.build_internal t0 t1 [o] d = none := by
  simp [Bvh.build_internal, Bvh.buildFuel, h, surrounding_box_option]

theorem build_internal_none_of_bad (t0 t1 : ℚ) (items : List HittableObj) (d : ℕ)
    (hbad : ∃ o ∈ items, ∀ s u : ℚ, o.bounding_box s u = none) :
    Bvh.build_internal t0 t1 items d = none := by
  obtain ⟨o, ho, hbb⟩ := hbad
  rcases items with _ | ⟨o1, _ | ⟨o2, _ | ⟨o3, rest⟩⟩⟩
  · simp [Bvh.build_internal, Bvh.buildFuel]
  · rcases List.mem_singleton.mp ho with rfl
    simp [Bvh.build_internal, Bvh.buildFuel, hbb, surrounding_box_option]
  · have hcmp : ∀ ax, box_compare o1 o2 ax = none := by
      intro ax
      rcases List.mem_cons.mp ho with rfl | ho2
      · cases h2 : o2.bounding_box 0 0 <;> simp [box_compare, hbb 0 0, h2]
      · rcases List.mem_singleton.mp ho2 with rfl
        cases h1 : o1.bounding_box 0 0 <;> simp [box_compare, hbb 0 0, h1]
    cases hf : ([o1, o2].foldl
        (fun bb item => surrounding_box_option bb (item.bounding_box t0 t1)) none) with
    | none => simp [Bvh.build_internal, Bvh.buildFuel, hf]
    | some bb => simp [Bvh.build_internal, Bvh.buildFuel, hf, hcmp]
  · have hall : ((o1 :: o2 :: o3 :: rest).all fun o => (o.bounding_box 0 0).isSome) = false := by
      rw [List.all_eq_false]
      exact ⟨o, ho, by simp [hbb 0 0]⟩
    cases hf : ((o1 :: o2 :: o3 :: rest).foldl
        (fun bb item => surrounding_box_option bb (item.bounding_box t0 t1)) none) with
    | none => simp [Bvh.build_internal, Bvh.buildFuel, hf]
    | some bb => simp [Bvh.build_internal, Bvh.buildFuel, hf, hall]

@[simp] theorem surrounding_box_option_isSome (a b : Option BoundingBox) :
    (surrounding_box_option a b).isSome ↔ a.isSome ∨ b.isSome := by
  cases a <;> cases b <;> simp [surrounding_box_option]

/-- The union-box fold of `Bvh::build_internal` / `HittableList::build`
produces a box iff the accumulator or some item provides one. -/
theorem foldl_sbo_isSome (t0 t1 : ℚ) :
    ∀ (items : List HittableObj) (acc : Option BoundingBox),
    (items.foldl (fun bb item => surrounding_box_option bb (item.bounding_box t0 t1)) acc).isSome
    ↔ acc.isSome ∨ ∃ o ∈ items, (o.bounding_box t0 t1).isSome := by
  intro items
  induction items with
  | nil => simp
  | cons o rest ih =>
    intro acc
    rw [List.foldl_cons, ih]
    simp only [surrounding_box_option_isSome, List.mem_cons]
    constructor
    · rintro ((h | h) | ⟨p, hp, hs⟩)
      · exact Or.inl h
      · exact Or.inr ⟨o, Or.inl rfl, h⟩
      · exact Or.inr ⟨p, Or.inr hp, hs⟩
    · rintro (h | ⟨p, hp | hp, hs⟩)
      · exact Or.inl (Or.inl h)
      · subst hp; exact Or.inl (Or.inr hs)
      · exact Or.inr ⟨p, hp, hs⟩

theorem buildFuel_isSome (t0 t1 : ℚ) :
    ∀ (fuel : ℕ) (items : List HittableObj) (d : ℕ),
      items.length ≤ fuel → items ≠ [] →
      (∀ o ∈ items, ∀ s u : ℚ, (o.bounding_box s u).isSome) →
      (Bvh.buildFuel t0 t1 fuel items d).isSome := by
  intro fuel
  induction fuel with
  | zero =>
    intro items d h1 h2 _
    cases items with
    | nil => exact absurd rfl h2
    | cons a l => simp at h1
  | succ fuel ih =>
    intro items d h1 hne hgood
    rcases items with _ | ⟨o1, _ | ⟨o2, _ | ⟨o3, rest⟩⟩⟩
    · exact absurd rfl hne
    · obtain ⟨b1, hb1⟩ := Option.isSome_iff_exists.mp (hgood o1 (by simp) t0 t1)
      simp [Bvh.buildFuel, hb1, surrounding_box_option]
    · obtain ⟨b1, hb1⟩ := Option.isSome_iff_exists.mp (hgood o1 (by simp) t0 t1)
      obtain ⟨b2, hb2⟩ := Option.isSome_iff_exists.mp (hgood o2 (by simp) t0 t1)
      obtain ⟨c1, hc1⟩ := Option.isSome_iff_exists.mp (hgood o1 (by simp) 0 0)
      obtain ⟨c2, hc2⟩ := Option.isSome_iff_exists.mp (hgood o2 (by simp) 0 0)
      by_cases hlt : c1.min.get (surrounding_box b1 b2).longestAxis <
          c2.min.get (surrounding_box b1 b2).longestAxis
      · simp [Bvh.buildFuel, hb1, hb2, hc1, hc2, box_compare, surrounding_box_option, hlt]
      · by_cases hq : c1.min.get (surrounding_box b1 b2).longestAxis =
            c2.min.get (surrounding_box b1 b2).longestAxis
        · simp [Bvh.buildFuel, hb1, hb2, hc1, hc2, box_compare, surrounding_box_option, hlt, hq]
        · simp [Bvh.buildFuel, hb1, hb2, hc1, hc2, box_compare, surrounding_box_option, hlt, hq]
    · have hall : ((o1 :: o2 :: o3 :: rest).all fun o => (o.bounding_box 0 0).isSome) = true :=
        List.all_eq_true.mpr (fun o ho => hgood o ho 0 0)
      have hfold : ((o1 :: o2 :: o3 :: rest).foldl
          (fun bb item => surrounding_box_option bb (item.bounding_box t0 t1)) none).isSome :=
        (foldl_sbo_isSome t0 t1 _ _).mpr (Or.inr ⟨o1, by simp, hgood o1 (by simp) t0 t1⟩)
      obtain ⟨ub, hub⟩ := Option.isSome_iff_exists.mp hfold
      have hperm := List.mergeSort_perm (o1 :: o2 :: o3 :: rest)
        (fun a b => decide (boxKey ub.longestAxis a ≤ boxKey ub.longestAxis b))
      have hslen : ((o1 :: o2 :: o3 :: rest).mergeSort
          (fun a b => decide (boxKey ub.longestAxis a ≤ boxKey ub.longestAxis b))).length
          = rest.length + 3 := by
        rw [List.length_mergeSort]; simp
      have hmemsort : ∀ o ∈ (o1 :: o2 :: o3 :: rest).mergeSort
          (fun a b => decide (boxKey ub.longestAxis a ≤ boxKey ub.longestAxis b)),
          o ∈ (o1 :: o2 :: o3 :: rest) := fun o ho => hperm.mem_iff.mp ho
      have hlt : (rest.length + 3) / 2 < rest.length + 3 := by omega
      have hLsome := ih ((o1 :: o2 :: o3 :: rest).mergeSort
            (fun a b => decide (boxKey ub.longestAxis a ≤ boxKey ub.longestAxis b))
            |>.take ((o1 :: o2 :: o3 :: rest).length / 2)) (d + 1)
        (by rw [List.length_take, hslen]; simp at h1 ⊢; omega)
        (by
          rw [← List.length_pos_iff_ne_nil, List.length_take, hslen]
          simp
          omega)
        (fun o ho => hgood o (hmemsort o (List.mem_of_mem_take ho)))
      have hRsome := ih ((o1 :: o2 :: o3 :: rest).mergeSort
            (fun a b => decide (boxKey ub.longestAxis a ≤ boxKey ub.longestAxis b))
            |>.drop ((o1 :: o2 :: o3 :: rest).length / 2)) (d + 1)
        (by rw [List.length_drop, hslen]; simp at h1 ⊢; omega)
        (by
          rw [← List.length_pos_iff_ne_nil, List.length_drop, hslen]
          simp
          omega)
        (fun o ho => hgood o (hmemsort o (List.mem_of_mem_drop ho)))
      obtain ⟨⟨lb, lm⟩, hL⟩ := Option.isSome_iff_exists.mp hLsome
      obtain ⟨⟨rb, rm⟩, hR⟩ := Option.isSome_iff_exists.mp hRsome
      simp only [Bvh.buildFuel, hub, hall, if_true]
      simp only [List.length_cons] at hL hR ⊢
      rw [hL, hR]
      simp [Bvh.bounding_box, surrounding_box_option]

/-- C8: `BoundingBox::new` panics (modelled `none`) iff `min > max` on some
axis and otherwise keeps `min`/`max` unchanged; `Bvh::build` panics on zero
items and on any item that reports no bounding box, and succeeds when the
list is non-empty and every item always reports a box. -/
theorem C8_construction_failures (mn mx : Vec3) (t0 t1 : ℚ) (items : List HittableObj) :
    (BoundingBox.new mn mx = none ↔ (mx.x < mn.x ∨ mx.y < mn.y ∨ mx.z < mn.z)) ∧
    (∀ bb, BoundingBox.new mn mx = some bb → bb.min = mn ∧ bb.max = mx) ∧
    (items = [] → Bvh.build t0 t1 items = none) ∧
    ((∃ o ∈ items, ∀ s u : ℚ, o.bounding_box s u = none) → Bvh.build t0 t1 items = none) ∧
    (items ≠ [] → (∀ o ∈ items, ∀ s u : ℚ, (o.bounding_box s u).isSome) →
      (Bvh.build t0 t1 items).isSome) := by
  refine ⟨?_, ?_, ?_, ?_, ?_⟩
  · unfold BoundingBox.new
    split
    · rename_i h; simp [h]
    · rename_i h; simp [h]
  · intro bb h
    unfold BoundingBox.new at h
    split at h
    · exact Option.noConfusion h
    · injection h with h2
      rw [← h2]
      exact ⟨rfl, rfl⟩
  · rintro rfl
    simp [Bvh.build, Bvh.build_internal, Bvh.buildFuel]
  · exact build_internal_none_of_bad t0 t1 items 0
  · intro hne hgood
    exact buildFuel_isSome t0 t1 items.length items 0 le_rfl hne hgood


/-- C8 witness: the construction-failure theorem applied at concrete
inputs — an inverted box, a valid box, the empty scene, a scene with a
box-less item, and a one-item scene with a box. -/
theorem C8_witness :
    BoundingBox.new ⟨1, 1, 1⟩ ⟨0, 0, 0⟩ = none ∧
    (∀ bb, BoundingBox.new ⟨0, 0, 0⟩ ⟨1, 1, 1⟩ = some bb →
      bb.min = ⟨0, 0, 0⟩ ∧ bb.max = ⟨1, 1, 1⟩) ∧
    Bvh.build 0 0 ([] : List HittableObj) = none ∧
    Bvh.build 0 0 [badObj] = none ∧
    (Bvh.build 0 0 [goodObj]).isSome := by
  refine ⟨?_, ?_, ?_, ?_, ?_⟩
  · exact (C8_construction_failures ⟨1, 1, 1⟩ ⟨0, 0, 0⟩ 0 0 []).1.mpr (by norm_num)
  · exact (C8_construction_failures ⟨0, 0, 0⟩ ⟨1, 1, 1⟩ 0 0 []).2.1
  · exact (C8_construction_failures ⟨0, 0, 0⟩ ⟨1, 1, 1⟩ 0 0 []).2.2.1 rfl
  · exact (C8_construction_failures ⟨0, 0, 0⟩ ⟨1, 1, 1⟩ 0 0 [badObj]).2.2.2.1
      ⟨badObj, by simp, fun s u => rfl⟩
  · exact (C8_construction_failures ⟨0, 0, 0⟩ ⟨1, 1, 1⟩ 0 0 [goodObj]).2.2.2.2 (by simp)
      (fun o ho s u => by rcases List.mem_singleton.mp ho with rfl; simp [goodObj])


/-- C7 counterexample: for the pre-sorted three-item scene
`[boxObjAt 0, boxObjAt 2, boxObjAt 4]` the built node's left child holds 1
leaf and its right child holds 2 — the right half receives the extra
element of an odd split (`split_off(len/2)` keeps only the first
`len/2 = 1` items on the left), contradicting the claimed left-biased
split. -/
theorem C7_counterexample :
    ∃ b m, Bvh.build 0 0 [boxObjAt 0, boxObjAt 2, boxObjAt 4] = some (b, m) ∧
      (BvhChild.leavesOpt b.left).length = 1 ∧ (BvhChild.leavesOpt b.right).length = 2 := by
  have hfold : [boxObjAt 0, boxObjAt 2, boxObjAt 4].foldl
      (fun bb item => surrounding_box_option bb (item.bounding_box 0 0)) none =
      some (surrounding_box (surrounding_box ⟨⟨0,0,0⟩,⟨1,1,1⟩, by norm_num⟩
        ⟨⟨2,0,0⟩,⟨3,1,1⟩, by norm_num⟩) ⟨⟨4,0,0⟩,⟨5,1,1⟩, by norm_num⟩) := by
    simp [boxObjAt, surrounding_box_option]
    all_goals norm_num
  have haxis : (surrounding_box (surrounding_box ⟨⟨0,0,0⟩,⟨1,1,1⟩, by norm_num⟩
      ⟨⟨2,0,0⟩,⟨3,1,1⟩, by norm_num⟩) ⟨⟨4,0,0⟩,⟨5,1,1⟩, by norm_num⟩).longestAxis = 0 := by
    simp [surrounding_box, BoundingBox.longestAxis]
    all_goals norm_num
  have hsorted : List.Pairwise
      (fun a b => (fun a b => decide (boxKey 0 a ≤ boxKey 0 b)) a b = true)
      [boxObjAt 0, boxObjAt 2, boxObjAt 4] := by
    simp [List.pairwise_cons, boxKey, boxObjAt, Vec3.get]
    all_goals norm_num
  have hms := List.mergeSort_of_sorted hsorted
  simp only [Bvh.build, Bvh.build_internal, List.length_cons, List.length_nil, Bvh.buildFuel,
    hfold, haxis, hms]
  norm_num
  simp only [boxObjAt, surrounding_box_option, box_compare, boxKey, Vec3.get, surrounding_box,
    BoundingBox.longestAxis]
  norm_num [min_def, max_def]
  simp [Bvh.bounding_box, Bvh.box]
  simp [Bvh.left, Bvh.right, BvhChild.leavesOpt, BvhChild.leaves, Bvh.leaves]
  done

/-- C7 (amended): for every item list of length `n ≥ 3` whose items all
report a box at times `(0,0)` (as the sort comparator requires) and whose
union box at `(time0, time1)` is `ub`, the build stable-sorts the items by
the min box coordinate along `ub`'s longest axis (the sorted list is a
permutation, is sorted by that key, and is the stable `mergeSort`), splits
at the midpoint index `n/2` with the *right* half receiving the extra
element when `n` is odd (not the left, as claimed), and the two recursive
results become the node's left and right children. -/
theorem C7_build_sort_split (t0 t1 : ℚ) (d : ℕ) (o1 o2 o3 : HittableObj)
    (rest : List HittableObj) (ub : BoundingBox)
    (hgood : ∀ o ∈ o1 :: o2 :: o3 :: rest, ((o.bounding_box 0 0)).isSome)
    (hub : (o1 :: o2 :: o3 :: rest).foldl
      (fun bb item => surrounding_box_option bb (item.bounding_box t0 t1)) none = some ub) :
    ∃ sorted : List HittableObj,
      sorted = (o1 :: o2 :: o3 :: rest).mergeSort
        (fun a b => decide (boxKey ub.longestAxis a ≤ boxKey ub.longestAxis b)) ∧
      sorted.Perm (o1 :: o2 :: o3 :: rest) ∧
      List.Pairwise (fun a b => boxKey ub.longestAxis a ≤ boxKey ub.longestAxis b) sorted ∧
      (sorted.take ((o1 :: o2 :: o3 :: rest).length / 2)).length
        = (o1 :: o2 :: o3 :: rest).length / 2 ∧
      (sorted.drop ((o1 :: o2 :: o3 :: rest).length / 2)).length
        = (o1 :: o2 :: o3 :: rest).length - (o1 :: o2 :: o3 :: rest).length / 2 ∧
      ((o1 :: o2 :: o3 :: rest).length % 2 = 1 →
        (sorted.drop ((o1 :: o2 :: o3 :: rest).length / 2)).length
          = (sorted.take ((o1 :: o2 :: o3 :: rest).length / 2)).length + 1) ∧
      ∀ lb lm rb rm,
        Bvh.build_internal t0 t1 (sorted.take ((o1 :: o2 :: o3 :: rest).length / 2)) (d + 1)
          = some (lb, lm) →
        Bvh.build_internal t0 t1 (sorted.drop ((o1 :: o2 :: o3 :: rest).length / 2)) (d + 1)
          = some (rb, rm) →
        Bvh.build_internal t0 t1 (o1 :: o2 :: o3 :: rest) d =
          some (Bvh.mk (some (.node lb)) (some (.node rb)) (surrounding_box lb.box rb.box),
            ⟨(o1 :: o2 :: o3 :: rest).length, min lm.min_depth rm.min_depth,
             max lm.max_depth rm.max_depth, (lm.average_depth + rm.average_depth) / 2⟩) := by
  have hslen : ((o1 :: o2 :: o3 :: rest).mergeSort
      (fun a b => decide (boxKey ub.longestAxis a ≤ boxKey ub.longestAxis b))).length
      = rest.length + 3 := by
    rw [List.length_mergeSort]; simp
  refine ⟨_, rfl, List.mergeSort_perm _ _, ?_, ?_, ?_, ?_, ?_⟩
  · exact (List.sorted_mergeSort
      (fun a b c hab hbc => by
        simp only [decide_eq_true_eq] at hab hbc ⊢
        exact le_trans hab hbc)
      (fun a b => by
        simp only [Bool.or_eq_true, decide_eq_true_eq]
        exact le_total _ _)
      (o1 :: o2 :: o3 :: rest)).imp (by simp)
  · rw [List.length_take, hslen]; simp; omega
  · rw [List.length_drop, hslen]; simp
  · intro hodd
    rw [List.length_drop, List.length_take, hslen]
    simp at hodd ⊢
    omega
  · intro lb lm rb rm hL hR
    have hall : ((o1 :: o2 :: o3 :: rest).all fun o => (o.bounding_box 0 0).isSome) = true :=
      List.all_eq_true.mpr hgood
    have hTake : Bvh.buildFuel t0 t1 (rest.length + 2)
        (((o1 :: o2 :: o3 :: rest).mergeSort
          (fun a b => decide (boxKey ub.longestAxis a ≤ boxKey ub.longestAxis b))).take
          ((o1 :: o2 :: o3 :: rest).length / 2)) (d + 1) = some (lb, lm) := by
      rw [Bvh.buildFuel_congr t0 t1 (rest.length + 2) _ (d + 1)
        ((((o1 :: o2 :: o3 :: rest).mergeSort
          (fun a b => decide (boxKey ub.longestAxis a ≤ boxKey ub.longestAxis b))).take
          ((o1 :: o2 :: o3 :: rest).length / 2)).length)
        (by rw [List.length_take, hslen]; simp; omega) le_rfl]
      exact hL
    have hDrop : Bvh.buildFuel t0 t1 (rest.length + 2)
        (((o1 :: o2 :: o3 :: rest).mergeSort
          (fun a b => decide (boxKey ub.longestAxis a ≤ boxKey ub.longestAxis b))).drop
          ((o1 :: o2 :: o3 :: rest).length / 2)) (d + 1) = some (rb, rm) := by
      rw [Bvh.buildFuel_congr t0 t1 (rest.length + 2) _ (d + 1)
        ((((o1 :: o2 :: o3 :: rest).mergeSort
          (fun a b => decide (boxKey ub.longestAxis a ≤ boxKey ub.longestAxis b))).drop
          ((o1 :: o2 :: o3 :: rest).length / 2)).length)
        (by rw [List.length_drop, hslen]; simp; omega) le_rfl]
      exact hR
    show Bvh.buildFuel t0 t1 (o1 :: o2 :: o3 :: rest).length (o1 :: o2 :: o3 :: rest) d = _
    have hlen : (o1 :: o2 :: o3 :: rest).length = (rest.length + 2) + 1 := by simp
    rw [hlen]
    conv_lhs => rw [Bvh.buildFuel]
    simp only [hub, hall, if_true]
    simp only [List.length_cons] at hTake hDrop ⊢
    rw [hTake, hDrop]
    simp [Bvh.bounding_box, surrounding_box_option, Bvh.box]


theorem C7_witness :
    ∃ sorted : List HittableObj,
      sorted = [boxObjAt 0, boxObjAt 2, boxObjAt 4].mergeSort
        (fun a b => decide (boxKey cUnionBox.longestAxis a ≤ boxKey cUnionBox.longestAxis b)) ∧
      sorted.Perm [boxObjAt 0, boxObjAt 2, boxObjAt 4] ∧
      List.Pairwise (fun a b => boxKey cUnionBox.longestAxis a ≤ boxKey cUnionBox.longestAxis b)
        sorted ∧
      (sorted.take ([boxObjAt 0, boxObjAt 2, boxObjAt 4].length / 2)).length
        = [boxObjAt 0, boxObjAt 2, boxObjAt 4].length / 2 ∧
      (sorted.drop ([boxObjAt 0, boxObjAt 2, boxObjAt 4].length / 2)).length
        = [boxObjAt 0, boxObjAt 2, boxObjAt 4].length
          - [boxObjAt 0, boxObjAt 2, boxObjAt 4].length / 2 ∧
      ([boxObjAt 0, boxObjAt 2, boxObjAt 4].length % 2 = 1 →
        (sorted.drop ([boxObjAt 0, boxObjAt 2, boxObjAt 4].length / 2)).length
          = (sorted.take ([boxObjAt 0, boxObjAt 2, boxObjAt 4].length / 2)).length + 1) ∧
      ∀ lb lm rb rm,
        Bvh.build_internal 0 0
          (sorted.take ([boxObjAt 0, boxObjAt 2, boxObjAt 4].length / 2)) 1 = some (lb, lm) →
        Bvh.build_internal 0 0
          (sorted.drop ([boxObjAt 0, boxObjAt 2, boxObjAt 4].length / 2)) 1 = some (rb, rm) →
        Bvh.build_internal 0 0 [boxObjAt 0, boxObjAt 2, boxObjAt 4] 0 =
          some (Bvh.mk (some (.node lb)) (some (.node rb)) (surrounding_box lb.box rb.box),
            ⟨[boxObjAt 0, boxObjAt 2, boxObjAt 4].length, min lm.min_depth rm.min_depth,
             max lm.max_depth rm.max_depth, (lm.average_depth + rm.average_depth) / 2⟩) := by
  exact C7_build_sort_split 0 0 0 (boxObjAt 0) (boxObjAt 2) (boxObjAt 4) [] cUnionBox
    (by simp [boxObjAt])
    (by simp [boxObjAt, surrounding_box_option, cUnionBox]; all_goals norm_num)

/-- C4: with at least one remaining bounce, if the scene hit's material
does not scatter, the integrator returns exactly the emitted term; if it
scatters, the integrator returns emitted plus the component-wise product
of the attenuation with the recursive colour at one less bounce. -/
theorem C4_ray_colour_bounce (sq : ℚ → ℚ) (bvh : Bvh) (ray : Ray) (d : ℕ) (use_sky : Bool)
    (hr : HitRecordFull) (hd : 1 ≤ d)
    (hh : Bvh.hit bvh ray (1 / 1000) fMAX = some hr) :
    (hr.material.scatter ray hr.toHitRecord = none →
      ray_colour sq bvh ray d use_sky = hr.material.emitted hr.u hr.v hr.point) ∧
    (∀ ray_out att, hr.material.scatter ray hr.toHitRecord = some (ray_out, att) →
      ray_colour sq bvh ray d use_sky =
        hr.material.emitted hr.u hr.v hr.point +
          att * ray_colour sq bvh ray_out (d - 1) use_sky) := by
  obtain ⟨k, rfl⟩ : ∃ k, d = k + 1 := ⟨d - 1, (Nat.succ_pred_eq_of_pos hd).symm⟩
  rw [show (1 / 1000 : ℚ) = 1000⁻¹ from one_div _] at hh
  constructor
  · intro hs
    rw [ray_colour]
    simp [hh, hs]
  · intro ray_out att hs
    rw [ray_colour]
    simp [hh, hs]


/-- C4 witness: the bounce equation applied to the one-sphere scene
`c4Bvh`, the ray `cRay` and depth 1, where the material does not scatter,
so the integrator returns the emitted colour. -/
theorem C4_witness :
    Bvh.hit c4Bvh cRay (1 / 1000) fMAX = some c4Rec ∧ (1 : ℕ) ≤ 1 ∧
    c4Rec.material.scatter cRay c4Rec.toHitRecord = none ∧
    ray_colour cSq c4Bvh cRay 1 false = c4Rec.material.emitted c4Rec.u c4Rec.v c4Rec.point := by
  have hh : Bvh.hit c4Bvh cRay (1 / 1000) fMAX = some c4Rec := by
    simp only [Bvh.hit, BvhChild.hit, BoundingBox.hit, slabGo, slabAxis, Vec3.get, c4Bvh, c4Box,
      cRay, Sphere.toHittable, Sphere.hit, cSq, cUv, c4Sphere, Vec3.dot, Vec3.len_squared,
      get_face_normal, Ray.at, ExtQ.blt, ExtQ.ble, c4Rec, c4Mat, fMAX]
    norm_num
  exact ⟨hh, le_rfl, rfl,
    (C4_ray_colour_bounce cSq c4Bvh cRay 1 false c4Rec le_rfl hh).1 rfl⟩

/-! ## C1: BVH traversal versus linear scan -/


theorem boxSub_refl (b : BoundingBox) : boxSub b b :=
  ⟨le_refl _, le_refl _, le_refl _, le_refl _, le_refl _, le_refl _⟩

theorem boxSub_trans {b1 b2 b3 : BoundingBox} (h1 : boxSub b1 b2) (h2 : boxSub b2 b3) :
    boxSub b1 b3 :=
  ⟨le_trans h2.1 h1.1, le_trans h2.2.1 h1.2.1, le_trans h2.2.2.1 h1.2.2.1,
   le_trans h1.2.2.2.1 h2.2.2.2.1, le_trans h1.2.2.2.2.1 h2.2.2.2.2.1,
   le_trans h1.2.2.2.2.2 h2.2.2.2.2.2⟩

theorem contains_mono {b1 b2 : BoundingBox} (h : boxSub b1 b2) {p : Vec3}
    (hp : b1.contains p) : b2.contains p :=
  ⟨le_trans h.1 hp.1, le_trans hp.2.1 h.2.2.2.1,
   le_trans h.2.1 hp.2.2.1, le_trans hp.2.2.2.1 h.2.2.2.2.1,
   le_trans h.2.2.1 hp.2.2.2.2.1, le_trans hp.2.2.2.2.2 h.2.2.2.2.2⟩

/-- Enlarging a box preserves slab-test success. -/
theorem box_hit_mono {b1 b2 : BoundingBox} (h : boxSub b1 b2) {r : Ray} {a c : ℚ}
    (hh : BoundingBox.hit b1 r a c = true) : BoundingBox.hit b2 r a c = true := by
  rw [box_hit_iff] at hh ⊢
  obtain ⟨t, u, h1, h2, h3, hc1, hc2⟩ := hh
  exact ⟨t, u, h1, h2, h3, contains_mono h hc1, contains_mono h hc2⟩

/-- The slab test rejects every degenerate or inverted window. -/
theorem box_hit_degenerate {b : BoundingBox} {r : Ray} {a c : ℚ} (h : c ≤ a) :
    BoundingBox.hit b r a c = false := by
  by_contra hne
  rw [Bool.not_eq_false, box_hit_iff] at hne
  obtain ⟨t, u, h1, h2, h3, _, _⟩ := hne
  linarith

theorem surrounding_box_sub_left (b1 b2 : BoundingBox) :
    boxSub b1 (surrounding_box b1 b2) :=
  ⟨min_le_left _ _, min_le_left _ _, min_le_left _ _,
   le_max_left _ _, le_max_left _ _, le_max_left _ _⟩

theorem surrounding_box_sub_right (b1 b2 : BoundingBox) :
    boxSub b2 (surrounding_box b1 b2) :=
  ⟨min_le_right _ _, min_le_right _ _, min_le_right _ _,
   le_max_right _ _, le_max_right _ _, le_max_right _ _⟩

theorem minSpec_congr {res : Option HitRecordFull} {P Q : ℚ → Prop}
    (h : ∀ t, P t ↔ Q t) (hm : MinSpec res P) : MinSpec res Q := by
  cases res with
  | none => exact fun t ht => hm t ((h t).mpr ht)
  | some hr => exact ⟨(h _).mp hm.1, fun t ht => hm.2 t ((h t).mpr ht)⟩

theorem minSpec_unique {r1 r2 : Option HitRecordFull} {P : ℚ → Prop}
    (h1 : MinSpec r1 P) (h2 : MinSpec r2 P) :
    r1.map (fun hr => hr.t) = r2.map (fun hr => hr.t) := by
  cases r1 with
  | none =>
    cases r2 with
    | none => rfl
    | some hr2 => exact absurd h2.1 (h1 hr2.t)
  | some hr1 =>
    cases r2 with
    | none => exact absurd h1.1 (h2 hr1.t)
    | some hr2 =>
      show some hr1.t = some hr2.t
      exact congrArg some (le_antisymm (h1.2 _ h2.1) (h2.2 _ h1.1))

/-- The linear-scan fold of `HittableList::hit` computes the least
candidate over the processed items, given a correct entry state. -/
theorem listFold_minSpec (candOf : HittableObj → Ray → ℚ → Prop) (ray : Ray) (a c : ℚ) :
    ∀ (items : List HittableObj) (acc : Option HitRecordFull) (closest : ℚ) (P : ℚ → Prop),
      (∀ o ∈ items, HitterSpec (candOf o) o) →
      ((acc = none ∧ closest = c ∧ (∀ t, P t → a ≤ t → t ≤ c → False)) ∨
       (∃ hr, acc = some hr ∧ closest = hr.t ∧ a ≤ hr.t ∧ hr.t ≤ c ∧ P hr.t ∧
          (∀ t, P t → a ≤ t → t ≤ hr.t → hr.t ≤ t))) →
      MinSpec
        ((items.foldl
          (fun (acc : Option HitRecordFull × ℚ) (item : HittableObj) =>
            match item.hit ray a acc.2 with
            | some hr => (some hr, hr.t)
            | none => acc) (acc, closest)).1)
        (fun t => (P t ∨ ∃ o ∈ items, candOf o ray t) ∧ a ≤ t ∧ t ≤ c) := by
  intro items
  induction items with
  | nil =>
    intro acc closest P _ hinv
    rcases hinv with ⟨hacc, _, hemp⟩ | ⟨hr, hacc, _, hat, htc, hP, hmin⟩
    · subst hacc
      intro t ⟨hPt, hat, htc⟩
      rcases hPt with hPt | ⟨o, ho, _⟩
      · exact hemp t hPt hat htc
      · exact absurd ho (List.not_mem_nil o)
    · subst hacc
      refine ⟨⟨Or.inl hP, hat, htc⟩, ?_⟩
      intro t ⟨hPt, hat2, htc2⟩
      rcases hPt with hPt | ⟨o, ho, _⟩
      · rcases le_or_lt t hr.t with hle | hlt
        · exact hmin t hPt hat2 hle
        · exact le_of_lt hlt
      · exact absurd ho (List.not_mem_nil o)
  | cons o rest ih =>
    intro acc closest P hlaw hinv
    have hso := hlaw o (List.mem_cons_self o rest)
    have hrest : ∀ p ∈ rest, HitterSpec (candOf p) p :=
      fun p hp => hlaw p (List.mem_cons_of_mem o hp)
    rw [List.foldl_cons]
    have hstep :
        MinSpec
          ((rest.foldl
            (fun (acc : Option HitRecordFull × ℚ) (item : HittableObj) =>
              match item.hit ray a acc.2 with
              | some hr => (some hr, hr.t)
              | none => acc)
            (match o.hit ray a closest with
              | some hr => (some hr, hr.t)
              | none => (acc, closest))).1)
          (fun t => ((fun t => P t ∨ candOf o ray t) t ∨ ∃ p ∈ rest, candOf p ray t) ∧
            a ≤ t ∧ t ≤ c) := by
      apply ih _ _ _ hrest
      cases hhit : o.hit ray a closest with
      | none =>
        have hnone := (hso ray a closest).1 hhit
        rcases hinv with ⟨hacc, hcl, hemp⟩ | ⟨hr, hacc, hcl, hat, htc, hP, hmin⟩
        · subst hacc
          refine Or.inl ⟨rfl, hcl, ?_⟩
          intro t hPt hat htc
          rcases hPt with hPt | hcand
          · exact hemp t hPt hat htc
          · exact hnone t hcand hat (hcl ▸ htc)
        · subst hacc
          refine Or.inr ⟨hr, rfl, hcl, hat, htc, Or.inl hP, ?_⟩
          intro t hPt hat2 hle
          rcases hPt with hPt | hcand
          · exact hmin t hPt hat2 hle
          · exact absurd (hnone t hcand hat2 (hcl ▸ hle)) not_false
      | some hr2 =>
        obtain ⟨hcand2, hat2, hcl2, hmin2⟩ := (hso ray a closest).2 hr2 hhit
        have hclc : closest ≤ c := by
          rcases hinv with ⟨_, hcl, _⟩ | ⟨hr, _, hcl, _, htc, _, _⟩
          · exact le_of_eq hcl
          · exact hcl ▸ htc
        refine Or.inr ⟨hr2, rfl, rfl, hat2, le_trans hcl2 hclc, Or.inr hcand2, ?_⟩
        intro t hPt hat3 hle3
        rcases hPt with hPt | hcand
        · rcases hinv with ⟨_, hcl, hemp⟩ | ⟨hr, _, hcl, hat4, htc4, hP4, hmin4⟩
          · exact absurd (hemp t hPt hat3 (le_trans hle3 (le_trans hcl2 hclc))) not_false
          · have h1 : hr.t ≤ t := hmin4 t hPt hat3 (le_trans hle3 (hcl ▸ hcl2))
            have h2 : t ≤ hr.t := le_trans hle3 (hcl ▸ hcl2)
            have h3 : hr2.t ≤ hr.t := hcl ▸ hcl2
            exact le_trans h3 (le_antisymm h2 h1).symm.le
        · exact hmin2 t hcand hat3 (le_trans hle3 hcl2)
    apply minSpec_congr _ hstep
    intro t
    constructor
    · rintro ⟨(hP | hc) | hrest2, hw⟩
      · exact ⟨Or.inl hP, hw⟩
      · exact ⟨Or.inr ⟨o, List.mem_cons_self o rest, hc⟩, hw⟩
      · obtain ⟨p, hp, hc⟩ := hrest2
        exact ⟨Or.inr ⟨p, List.mem_cons_of_mem o hp, hc⟩, hw⟩
    · rintro ⟨hP | ⟨p, hp, hc⟩, hw⟩
      · exact ⟨Or.inl (Or.inl hP), hw⟩
      · rcases List.mem_cons.mp hp with rfl | hp2
        · exact ⟨Or.inl (Or.inr hc), hw⟩
        · exact ⟨Or.inr ⟨p, hp2, hc⟩, hw⟩

/-- Rust `HittableList::hit` returns the least candidate over all items in the
window. -/
theorem listHit_minSpec (t0 t1 : ℚ) (candOf : HittableObj → Ray → ℚ → Prop)
    (items : List HittableObj) (hlaw : ∀ o ∈ items, HitterSpec (candOf o) o)
    (ray : Ray) (a c : ℚ) :
    MinSpec ((HittableList.build t0 t1 items).hit ray a c)
      (fun t => (∃ o ∈ items, candOf o ray t) ∧ a ≤ t ∧ t ≤ c) := by
  have h := listFold_minSpec candOf ray a c items none c (fun _ => False) hlaw
    (Or.inl ⟨rfl, rfl, fun t ht _ _ => ht⟩)
  exact minSpec_congr (fun t => by simp) h

/-- In a `Good` tree, every leaf satisfies the hitter contract and the
node's stored box covers every leaf's candidates. -/
theorem good_leaves_spec (t0 t1 : ℚ) (candOf : HittableObj → Ray → ℚ → Prop) :
    ∀ (n : ℕ) (b : Bvh), b.size ≤ n → Bvh.Good t0 t1 candOf b →
      ∀ o ∈ b.leaves, HitterSpec (candOf o) o ∧
        ∀ ray a c t, candOf o ray t → a ≤ t → t ≤ c → a < c →
          BoundingBox.hit b.box ray a c = true := by
  intro n
  induction n with
  | zero =>
    intro b hs
    obtain ⟨l, r, bb⟩ := b
    simp [Bvh.size] at hs
  | succ n ih =>
    intro b hsz hg o ho
    obtain ⟨l, r, bb⟩ := b
    simp only [Bvh.size] at hsz
    have hchild : ∀ ch : BvhChild, BvhChild.Good t0 t1 candOf bb ch →
        BvhChild.size ch ≤ n + 1 → ∀ p ∈ BvhChild.leaves ch, HitterSpec (candOf p) p ∧
        ∀ ray a c t, candOf p ray t → a ≤ t → t ≤ c → a < c →
          BoundingBox.hit bb ray a c = true := by
      intro ch hgc hszc p hp
      cases ch with
      | node b2 =>
        simp only [BvhChild.leaves] at hp
        simp only [BvhChild.size] at hszc
        have hs2 : b2.size ≤ n := by omega
        have hrec := ih b2 hs2 hgc.1 p hp
        exact ⟨hrec.1, fun ray a c t hc hat htc hac =>
          box_hit_mono hgc.2 (hrec.2 ray a c t hc hat htc hac)⟩
      | prim q =>
        simp only [BvhChild.leaves, List.mem_singleton] at hp
        subst hp
        obtain ⟨hhs, box, hbox, hcov, hsub⟩ := hgc
        exact ⟨hhs, fun ray a c t hc hat htc hac =>
          box_hit_mono hsub (hcov ray a c t hc hat htc hac)⟩
    simp only [Bvh.leaves] at ho
    rcases List.mem_append.mp ho with hol | hor
    · cases l with
      | none => simp [BvhChild.leavesOpt] at hol
      | some ch =>
        simp only [BvhChild.leavesOpt] at hol
        have hszc : BvhChild.size ch ≤ n + 1 := by
          simp only [BvhChild.sizeOpt] at hsz
          omega
        exact hchild ch hg.1 hszc o hol
    · cases r with
      | none => simp [BvhChild.leavesOpt] at hor
      | some ch =>
        simp only [BvhChild.leavesOpt] at hor
        have hszc : BvhChild.size ch ≤ n + 1 := by
          cases l <;> simp only [BvhChild.sizeOpt] at hsz <;> omega
        exact hchild ch hg.2 hszc o hor

/-- BVH traversal computes the least candidate over the leaves, except
that a degenerate window (always pruned by the slab test) yields `none`. -/
theorem bvh_hit_minSpec (t0 t1 : ℚ) (candOf : HittableObj → Ray → ℚ → Prop) :
    ∀ (n : ℕ) (b : Bvh), b.size ≤ n → Bvh.Good t0 t1 candOf b →
    ∀ (ray : Ray) (a c : ℚ), a ≤ c →
      MinSpec (Bvh.hit b ray a c)
        (fun t => (∃ o ∈ b.leaves, candOf o ray t) ∧ a ≤ t ∧ t ≤ c)
      ∨ (Bvh.hit b ray a c = none ∧ a = c) := by
  intro n
  induction n with
  | zero =>
    intro b hs
    obtain ⟨l, r, bb⟩ := b
    simp [Bvh.size] at hs
  | succ n ih =>
    intro b hsz hg ray a c hac
    obtain ⟨l, r, bb⟩ := b
    simp only [Bvh.size] at hsz
    have hchild : ∀ ch : BvhChild, BvhChild.Good t0 t1 candOf bb ch →
        BvhChild.size ch ≤ n + 1 → ∀ a2 c2 : ℚ, a2 ≤ c2 →
        MinSpec (BvhChild.hit ch ray a2 c2)
          (fun t => (∃ o ∈ BvhChild.leaves ch, candOf o ray t) ∧ a2 ≤ t ∧ t ≤ c2)
        ∨ (BvhChild.hit ch ray a2 c2 = none ∧ a2 = c2) := by
      intro ch hgc hszc a2 c2 hac2
      cases ch with
      | node b2 =>
        simp only [BvhChild.size] at hszc
        simp only [BvhChild.hit, BvhChild.leaves]
        exact ih b2 (by omega) hgc.1 ray a2 c2 hac2
      | prim q =>
        obtain ⟨hhs, _⟩ := hgc
        left
        simp only [BvhChild.hit, BvhChild.leaves]
        cases hq : q.hit ray a2 c2 with
        | none =>
          intro t ht
          obtain ⟨⟨o, ho, hco⟩, h1, h2⟩ := ht
          rw [List.mem_singleton] at ho
          subst ho
          exact (hhs ray a2 c2).1 hq t hco h1 h2
        | some hr =>
          obtain ⟨hco, h1, h2, hmin⟩ := (hhs ray a2 c2).2 hr hq
          refine ⟨⟨⟨q, List.mem_singleton.mpr rfl, hco⟩, h1, h2⟩, ?_⟩
          intro t ht
          obtain ⟨⟨o, ho, hco2⟩, h3, h4⟩ := ht
          rw [List.mem_singleton] at ho
          subst ho
          exact hmin t hco2 h3 h4
    rcases eq_or_lt_of_le hac with heq | hlt
    · right
      have hbx : BoundingBox.hit bb ray a c = false := box_hit_degenerate (le_of_eq heq.symm)
      refine ⟨?_, heq⟩
      cases l <;> cases r <;> simp [Bvh.hit, hbx]
    · left
      cases hbx : BoundingBox.hit bb ray a c with
      | false =>
        have hres : Bvh.hit (Bvh.mk l r bb) ray a c = none := by
          cases l <;> cases r <;> simp [Bvh.hit, hbx]
        rw [hres]
        intro t ht
        obtain ⟨⟨o, ho, hco⟩, h1, h2⟩ := ht
        have hcov := (good_leaves_spec t0 t1 candOf (n + 1) (Bvh.mk l r bb)
          (by simp only [Bvh.size]; omega) hg o ho).2
        have := hcov ray a c t hco h1 h2 hlt
        simp only [Bvh.box] at this
        rw [hbx] at this
        exact Bool.noConfusion this
      | true =>
        cases l with
        | none =>
          cases r with
          | none =>
            rw [show Bvh.hit (Bvh.mk none none bb) ray a c = none from by simp [Bvh.hit, hbx]]
            intro t ht
            obtain ⟨⟨o, ho, _⟩, _, _⟩ := ht
            simp [Bvh.leaves, BvhChild.leavesOpt] at ho
          | some rc =>
            rw [show Bvh.hit (Bvh.mk none (some rc) bb) ray a c = BvhChild.hit rc ray a c from
              by simp [Bvh.hit, hbx]]
            have hszc : BvhChild.size rc ≤ n + 1 := by
              simp only [BvhChild.sizeOpt] at hsz; omega
            rcases hchild rc hg.2 hszc a c hac with hR | ⟨_, heq2⟩
            · apply minSpec_congr _ hR
              intro t
              simp [Bvh.leaves, BvhChild.leavesOpt]
            · exact absurd heq2 (ne_of_lt hlt)
        | some lc =>
          have hszl : BvhChild.size lc ≤ n + 1 := by
            cases r <;> simp only [BvhChild.sizeOpt] at hsz <;> omega
          cases r with
          | none =>
            rw [show Bvh.hit (Bvh.mk (some lc) none bb) ray a c = BvhChild.hit lc ray a c from
              by simp [Bvh.hit, hbx]]
            rcases hchild lc hg.1 hszl a c hac with hL | ⟨_, heq2⟩
            · apply minSpec_congr _ hL
              intro t
              simp [Bvh.leaves, BvhChild.leavesOpt]
            · exact absurd heq2 (ne_of_lt hlt)
          | some rc =>
            have hszr : BvhChild.size rc ≤ n + 1 := by
              simp only [BvhChild.sizeOpt] at hsz; omega
            have hmem : ∀ t, ((∃ o ∈ Bvh.leaves (Bvh.mk (some lc) (some rc) bb),
                candOf o ray t) ↔
                (∃ o ∈ BvhChild.leaves lc, candOf o ray t) ∨
                (∃ o ∈ BvhChild.leaves rc, candOf o ray t)) := by
              intro t
              simp only [Bvh.leaves, BvhChild.leavesOpt, List.mem_append]
              constructor
              · rintro ⟨o, ho | ho, hco⟩
                · exact Or.inl ⟨o, ho, hco⟩
                · exact Or.inr ⟨o, ho, hco⟩
              · rintro (⟨o, ho, hco⟩ | ⟨o, ho, hco⟩)
                · exact ⟨o, Or.inl ho, hco⟩
                · exact ⟨o, Or.inr ho, hco⟩
            have hL := (hchild lc hg.1 hszl a c hac).resolve_right
              (fun h => absurd h.2 (ne_of_lt hlt))
            cases hlhit : BvhChild.hit lc ray a c with
            | none =>
              rw [hlhit] at hL
              have hR := (hchild rc hg.2 hszr a c hac).resolve_right
                (fun h => absurd h.2 (ne_of_lt hlt))
              rw [show Bvh.hit (Bvh.mk (some lc) (some rc) bb) ray a c
                  = BvhChild.hit rc ray a c from by simp [Bvh.hit, hbx, hlhit]]
              refine minSpec_congr ?_ hR
              intro t
              rw [hmem t]
              constructor
              · rintro ⟨hr2, hw⟩
                exact ⟨Or.inr hr2, hw⟩
              · rintro ⟨hor, hw⟩
                rcases hor with hl2 | hr2
                · exact absurd ⟨hl2, hw.1, hw.2⟩ (fun hh => hL t hh)
                · exact ⟨hr2, hw⟩
            | some hrL =>
              rw [hlhit] at hL
              obtain ⟨⟨memL, h1L, h2L⟩, hminL⟩ := hL
              rcases hchild rc hg.2 hszr a hrL.t h1L with hR | ⟨hRnone, heq2⟩
              · cases hrhit : BvhChild.hit rc ray a hrL.t with
                | none =>
                  rw [hrhit] at hR
                  rw [show Bvh.hit (Bvh.mk (some lc) (some rc) bb) ray a c = some hrL from
                    by simp [Bvh.hit, hbx, hlhit, hrhit]]
                  refine ⟨⟨(hmem hrL.t).mpr (Or.inl memL), h1L, h2L⟩, ?_⟩
                  intro t ht
                  obtain ⟨hor, h3, h4⟩ := ht
                  rcases (hmem t).mp hor with hl2 | hr2
                  · exact hminL t ⟨hl2, h3, h4⟩
                  · by_contra hcon
                    push_neg at hcon
                    exact hR t ⟨hr2, h3, le_of_lt hcon⟩
                | some hrR =>
                  rw [hrhit] at hR
                  obtain ⟨⟨memR, h1R, h2R⟩, hminR⟩ := hR
                  rw [show Bvh.hit (Bvh.mk (some lc) (some rc) bb) ray a c = some hrR from
                    by simp [Bvh.hit, hbx, hlhit, hrhit]]
                  refine ⟨⟨(hmem hrR.t).mpr (Or.inr memR), h1R, le_trans h2R h2L⟩, ?_⟩
                  intro t ht
                  obtain ⟨hor, h3, h4⟩ := ht
                  rcases (hmem t).mp hor with hl2 | hr2
                  · exact le_trans h2R (hminL t ⟨hl2, h3, h4⟩)
                  · rcases le_or_lt t hrL.t with hle | hgt
                    · exact hminR t ⟨hr2, h3, hle⟩
                    · exact le_trans h2R (le_of_lt hgt)
              · rw [show Bvh.hit (Bvh.mk (some lc) (some rc) bb) ray a c = some hrL from
                  by simp [Bvh.hit, hbx, hlhit, hRnone]]
                refine ⟨⟨(hmem hrL.t).mpr (Or.inl memL), h1L, h2L⟩, ?_⟩
                intro t ht
                obtain ⟨hor, h3, h4⟩ := ht
                rcases (hmem t).mp hor with hl2 | hr2
                · exact hminL t ⟨hl2, h3, h4⟩
                · rw [← heq2]
                  exact h3

/-- A successful build yields a tree whose leaves are a permutation of the
input items and which is well-formed for any candidate assignment whose
contracts the items satisfy. -/
theorem buildFuel_good (t0 t1 : ℚ) (candOf : HittableObj → Ray → ℚ → Prop) :
    ∀ (fuel : ℕ) (items : List HittableObj) (d : ℕ) (b : Bvh) (m : BvhMetrics),
      Bvh.buildFuel t0 t1 fuel items d = some (b, m) →
      (∀ o ∈ items, HitterSpec (candOf o) o ∧
        ∃ box, o.bounding_box t0 t1 = some box ∧ CoversCands (candOf o) box) →
      b.leaves.Perm items ∧ Bvh.Good t0 t1 candOf b := by
  intro fuel
  induction fuel with
  | zero =>
    intro items d b m hbuild
    exact absurd hbuild (by simp [Bvh.buildFuel])
  | succ fuel ih =>
    intro items d b m hbuild hlaw
    rcases items with _ | ⟨o1, _ | ⟨o2, _ | ⟨o3, rest⟩⟩⟩
    · exact absurd hbuild (by simp [Bvh.buildFuel])
    · obtain ⟨hhs1, box1, hbb1, hcov1⟩ := hlaw o1 (by simp)
      rw [show Bvh.buildFuel t0 t1 (fuel + 1) [o1] d =
          some (Bvh.mk (some (.prim o1)) none box1, ⟨1, d + 1, d + 1, ((d : ℚ) + 1)⟩) from
        by simp [Bvh.buildFuel, hbb1, surrounding_box_option]] at hbuild
      obtain ⟨rfl, rfl⟩ : Bvh.mk (some (.prim o1)) none box1 = b ∧ _ = m := by
        simpa using hbuild
      refine ⟨by simp [Bvh.leaves, BvhChild.leavesOpt, BvhChild.leaves], ?_, trivial⟩
      exact ⟨hhs1, box1, hbb1, hcov1, boxSub_refl box1⟩
    · obtain ⟨hhs1, box1, hbb1, hcov1⟩ := hlaw o1 (by simp)
      obtain ⟨hhs2, box2, hbb2, hcov2⟩ := hlaw o2 (by simp)
      cases hc1 : o1.bounding_box 0 0 with
      | none =>
        exact absurd hbuild (by
          cases hc2 : o2.bounding_box 0 0 <;>
            simp [Bvh.buildFuel, hbb1, hbb2, surrounding_box_option, box_compare, hc1, hc2])
      | some c1 =>
        cases hc2 : o2.bounding_box 0 0 with
        | none =>
          exact absurd hbuild (by
            simp [Bvh.buildFuel, hbb1, hbb2, surrounding_box_option, box_compare, hc1, hc2])
        | some c2 =>
          by_cases hlt2 : c1.min.get (surrounding_box box1 box2).longestAxis <
              c2.min.get (surrounding_box box1 box2).longestAxis
          · rw [show Bvh.buildFuel t0 t1 (fuel + 1) [o1, o2] d =
                some (Bvh.mk (some (.prim o1)) (some (.prim o2)) (surrounding_box box1 box2),
                  ⟨2, d + 1, d + 1, ((d : ℚ) + 1)⟩) from by
              simp [Bvh.buildFuel, hbb1, hbb2, surrounding_box_option, box_compare, hc1, hc2,
                hlt2]] at hbuild
            obtain ⟨rfl, rfl⟩ : Bvh.mk (some (.prim o1)) (some (.prim o2))
                (surrounding_box box1 box2) = b ∧ _ = m := by simpa using hbuild
            refine ⟨by simp [Bvh.leaves, BvhChild.leavesOpt, BvhChild.leaves], ?_, ?_⟩
            · exact ⟨hhs1, box1, hbb1, hcov1, surrounding_box_sub_left box1 box2⟩
            · exact ⟨hhs2, box2, hbb2, hcov2, surrounding_box_sub_right box1 box2⟩
          · by_cases hq2 : c1.min.get (surrounding_box box1 box2).longestAxis =
                c2.min.get (surrounding_box box1 box2).longestAxis
            · rw [show Bvh.buildFuel t0 t1 (fuel + 1) [o1, o2] d =
                  some (Bvh.mk (some (.prim o1)) (some (.prim o2)) (surrounding_box box1 box2),
                    ⟨2, d + 1, d + 1, ((d : ℚ) + 1)⟩) from by
                simp [Bvh.buildFuel, hbb1, hbb2, surrounding_box_option, box_compare, hc1, hc2,
                  hlt2, hq2]] at hbuild
              obtain ⟨rfl, rfl⟩ : Bvh.mk (some (.prim o1)) (some (.prim o2))
                  (surrounding_box box1 box2) = b ∧ _ = m := by simpa using hbuild
              refine ⟨by simp [Bvh.leaves, BvhChild.leavesOpt, BvhChild.leaves], ?_, ?_⟩
              · exact ⟨hhs1, box1, hbb1, hcov1, surrounding_box_sub_left box1 box2⟩
              · exact ⟨hhs2, box2, hbb2, hcov2, surrounding_box_sub_right box1 box2⟩
            · rw [show Bvh.buildFuel t0 t1 (fuel + 1) [o1, o2] d =
                  some (Bvh.mk (some (.prim o2)) (some (.prim o1)) (surrounding_box box2 box1),
                    ⟨2, d + 1, d + 1, ((d : ℚ) + 1)⟩) from by
                simp [Bvh.buildFuel, hbb1, hbb2, surrounding_box_option, box_compare, hc1, hc2,
                  hlt2, hq2]] at hbuild
              obtain ⟨rfl, rfl⟩ : Bvh.mk (some (.prim o2)) (some (.prim o1))
                  (surrounding_box box2 box1) = b ∧ _ = m := by simpa using hbuild
              refine ⟨?_, ?_, ?_⟩
              · simp only [Bvh.leaves, BvhChild.leavesOpt, BvhChild.leaves]
                exact List.Perm.swap o1 o2 []
              · exact ⟨hhs2, box2, hbb2, hcov2, surrounding_box_sub_left box2 box1⟩
              · exact ⟨hhs1, box1, hbb1, hcov1, surrounding_box_sub_right box2 box1⟩
    · cases hall : ((o1 :: o2 :: o3 :: rest).all fun o => (o.bounding_box 0 0).isSome) with
      | false =>
        refine absurd hbuild (fun hcontra => ?_)
        rw [Bvh.buildFuel] at hcontra
        cases hf : ((o1 :: o2 :: o3 :: rest).foldl
            (fun bb item => surrounding_box_option bb (item.bounding_box t0 t1)) none) with
        | none => rw [hf] at hcontra; simp at hcontra
        | some ub => rw [hf] at hcontra; simp [hall] at hcontra
      | true =>
        obtain ⟨ub, hub⟩ := Option.isSome_iff_exists.mp
          ((foldl_sbo_isSome t0 t1 (o1 :: o2 :: o3 :: rest) none).mpr (Or.inr ⟨o1, by simp,
            (hlaw o1 (by simp)).2.elim (fun box hb => by simp [hb.1])⟩))
        have hperm := List.mergeSort_perm (o1 :: o2 :: o3 :: rest)
          (fun a b => decide (boxKey ub.longestAxis a ≤ boxKey ub.longestAxis b))
        have hmemsort : ∀ o ∈ (o1 :: o2 :: o3 :: rest).mergeSort
            (fun a b => decide (boxKey ub.longestAxis a ≤ boxKey ub.longestAxis b)),
            o ∈ (o1 :: o2 :: o3 :: rest) := fun o ho => hperm.mem_iff.mp ho
        cases hL : Bvh.buildFuel t0 t1 fuel
            (((o1 :: o2 :: o3 :: rest).mergeSort
              (fun a b => decide (boxKey ub.longestAxis a ≤ boxKey ub.longestAxis b))).take
              ((o1 :: o2 :: o3 :: rest).length / 2)) (d + 1) with
        | none =>
          refine absurd hbuild ?_
          simp only [Bvh.buildFuel, hub, hall, if_true]
          simp only [List.length_cons] at hL ⊢
          rw [hL]
          simp
        | some pl =>
          obtain ⟨lb, lm⟩ := pl
          cases hR : Bvh.buildFuel t0 t1 fuel
              (((o1 :: o2 :: o3 :: rest).mergeSort
                (fun a b => decide (boxKey ub.longestAxis a ≤ boxKey ub.longestAxis b))).drop
                ((o1 :: o2 :: o3 :: rest).length / 2)) (d + 1) with
          | none =>
            refine absurd hbuild ?_
            simp only [Bvh.buildFuel, hub, hall, if_true]
            simp only [List.length_cons] at hL hR ⊢
            rw [hL, hR]
            simp
          | some pr2 =>
            obtain ⟨rb, rm⟩ := pr2
            obtain ⟨hpermL, hgoodL⟩ := ih _ (d + 1) lb lm hL
              (fun o ho => hlaw o (hmemsort o (List.mem_of_mem_take ho)))
            obtain ⟨hpermR, hgoodR⟩ := ih _ (d + 1) rb rm hR
              (fun o ho => hlaw o (hmemsort o (List.mem_of_mem_drop ho)))
            rw [show Bvh.buildFuel t0 t1 (fuel + 1) (o1 :: o2 :: o3 :: rest) d =
                some (Bvh.mk (some (.node lb)) (some (.node rb)) (surrounding_box lb.box rb.box),
                  ⟨(o1 :: o2 :: o3 :: rest).length, min lm.min_depth rm.min_depth,
                   max lm.max_depth rm.max_depth, (lm.average_depth + rm.average_depth) / 2⟩)
                from by
              conv_lhs => rw [Bvh.buildFuel]
              simp only [hub, hall, if_true]
              simp only [List.length_cons] at hL hR ⊢
              rw [hL, hR]
              simp [Bvh.bounding_box, surrounding_box_option]] at hbuild
            obtain ⟨rfl, rfl⟩ : Bvh.mk (some (.node lb)) (some (.node rb))
                (surrounding_box lb.box rb.box) = b ∧ _ = m := by simpa using hbuild
            refine ⟨?_, ?_, ?_⟩
            · simp only [Bvh.leaves, BvhChild.leavesOpt, BvhChild.leaves]
              refine (hpermL.append hpermR).trans ?_
              rw [List.take_append_drop]
              exact hperm
            · exact ⟨hgoodL, surrounding_box_sub_left lb.box rb.box⟩
            · exact ⟨hgoodR, surrounding_box_sub_right lb.box rb.box⟩


/-- C1 (amended): for a scene of primitives that each satisfy the hitter
contract (a fixed candidate set per ray, `hit` returning the least
in-window candidate) and report a bounding box whose slab test accepts
every non-degenerate window containing a candidate, and for every
non-degenerate query window `t_min < t_max`, `Bvh::hit` on a successfully
built tree hits at exactly the same parameter `t` as the linear
`HittableList` scan — including agreement on `None`. -/
theorem C1_bvh_hit_matches_linear_scan (t0 t1 : ℚ) (items : List HittableObj)
    (b : Bvh) (m : BvhMetrics)
    (hbuild : Bvh.build t0 t1 items = some (b, m))
    (hlawful : ∀ o ∈ items, Lawful t0 t1 o)
    (ray : Ray) (t_min t_max : ℚ) (hw : t_min < t_max) :
    (Bvh.hit b ray t_min t_max).map (fun hr => hr.t)
      = ((HittableList.build t0 t1 items).hit ray t_min t_max).map (fun hr => hr.t) := by
  classical
  have hex : ∀ o, ∃ cand : Ray → ℚ → Prop, o ∈ items →
      HitterSpec cand o ∧ ∃ box, o.bounding_box t0 t1 = some box ∧ CoversCands cand box := by
    intro o
    by_cases ho : o ∈ items
    · obtain ⟨cand, h1, h2⟩ := hlawful o ho
      exact ⟨cand, fun _ => ⟨h1, h2⟩⟩
    · exact ⟨fun _ _ => False, fun h => absurd h ho⟩
  choose candOf hcandOf using hex
  obtain ⟨hperm, hgood⟩ := buildFuel_good t0 t1 candOf items.length items 0 b m
    (by simpa [Bvh.build, Bvh.build_internal] using hbuild) (fun o ho => hcandOf o ho)
  have hlist := listHit_minSpec t0 t1 candOf items (fun o ho => (hcandOf o ho).1) ray t_min t_max
  rcases bvh_hit_minSpec t0 t1 candOf b.size b le_rfl hgood ray t_min t_max (le_of_lt hw) with
    hmin | ⟨_, hdeg⟩
  · have hiff : ∀ t : ℚ, ((∃ o ∈ b.leaves, candOf o ray t) ∧ t_min ≤ t ∧ t ≤ t_max) ↔
        ((∃ o ∈ items, candOf o ray t) ∧ t_min ≤ t ∧ t ≤ t_max) := by
      intro t
      constructor
      · rintro ⟨⟨o, ho, hc⟩, h2⟩
        exact ⟨⟨o, hperm.mem_iff.mp ho, hc⟩, h2⟩
      · rintro ⟨⟨o, ho, hc⟩, h2⟩
        exact ⟨⟨o, hperm.mem_iff.mpr ho, hc⟩, h2⟩
    exact minSpec_unique (minSpec_congr hiff hmin) hlist
  · exact absurd hdeg (ne_of_lt hw)

/-- C1 counterexample: for the one-sphere scene (radius `1/2` at the
origin), the ray from `(0,0,2)` toward it, and the window `[0, 3/2]`, the
linear scan hits the sphere at the window-boundary parameter `t = 3/2` but
the BVH returns `None` — its slab test rejects the single-point overlap
`[3/2, 3/2]` with the sphere's box, so the BVH misses a hit the
brute-force scan finds and the claimed window-wise equality fails. -/
theorem C1_counterexample :
    ∃ b m, Bvh.build 0 0 [c1Obj] = some (b, m) ∧
      Bvh.hit b c1Ray 0 (3/2) = none ∧
      ∃ hr, (HittableList.build 0 0 [c1Obj]).hit c1Ray 0 (3/2) = some hr ∧ hr.t = 3/2 := by
  have hbox : c1Obj.bounding_box 0 0 = some c1Box := by
    simp only [c1Obj, Sphere.toHittable, Sphere.boundingBox, BoundingBox.new, cSphere, c1Box]
    norm_num [Vec3.mk_sub, Vec3.mk_add]
  refine ⟨Bvh.mk (some (.prim c1Obj)) none c1Box, ⟨1, 1, 1, 1⟩, ?_, ?_, ?_⟩
  · simp only [Bvh.build, Bvh.build_internal, List.length_cons, List.length_nil, Bvh.buildFuel,
      List.foldl, hbox, surrounding_box_option]
    norm_num
  · have hbf : BoundingBox.hit c1Box c1Ray 0 (3/2) = false := by
      simp only [BoundingBox.hit, slabGo, slabAxis, Vec3.get, c1Box, c1Ray, ExtQ.blt, ExtQ.ble]
      norm_num
    simp [Bvh.hit, hbf]
  · simp only [HittableList.build, HittableList.hit, List.foldl, c1Obj, Sphere.toHittable,
      Sphere.hit, cSq, cUv, cSphere, c1Ray, Vec3.dot, Vec3.len_squared, Vec3.mk_sub, Ray.at]
    norm_num

/-- C1 witness: the amended differential theorem applied to the concrete
two-item scene of never-hitting boxed objects, the concrete ray `cRay`
and the non-degenerate window `[0, 1]`, with the build evaluated. -/
theorem C1_witness :
    ∃ b m, Bvh.build 0 0 [goodObj, goodObj] = some (b, m) ∧
      (Bvh.hit b cRay 0 1).map (fun hr => hr.t)
        = ((HittableList.build 0 0 [goodObj, goodObj]).hit cRay 0 1).map (fun hr => hr.t) := by
  have hgl : Lawful 0 0 goodObj :=
    ⟨fun _ _ => False,
     fun ray a b => ⟨fun _ t hf _ _ => hf.elim, fun hr h => Option.noConfusion h⟩,
     cBox, rfl, fun ray a c t hf => hf.elim⟩
  have hall : ∀ o ∈ [goodObj, goodObj], Lawful 0 0 o := by
    intro o ho
    rcases List.mem_cons.mp ho with rfl | ho2
    · exact hgl
    · rcases List.mem_singleton.mp ho2 with rfl
      exact hgl
  have hbm : Bvh.build 0 0 [goodObj, goodObj] =
      some (Bvh.mk (some (.prim goodObj)) (some (.prim goodObj)) (surrounding_box cBox cBox),
        ⟨2, 1, 1, 1⟩) := by
    simp only [Bvh.build, Bvh.build_internal, List.length_cons, List.length_nil, Bvh.buildFuel,
      List.foldl, goodObj, surrounding_box_option, box_compare]
    norm_num
  exact ⟨_, _, hbm,
    C1_bvh_hit_matches_linear_scan 0 0 [goodObj, goodObj] _ _ hbm hall cRay 0 1 (by norm_num)⟩
